import Mathlib

/-!
A verification development for `src/prisma_value.rs`: the Rust-friendly
`PrismaValue` / `Item` types, their conversions to and from the query
engine's canonical `prisma_models::PrismaValue` / `query_core::Item`, and
the serde serialization policy of the Rust-friendly types.

Modelling conventions:
* Machine integers are `ℤ` (with explicit wrapping where the source casts).
* `f64` is modelled by `F64`: finite doubles carry their exact rational
  value (every finite binary64 number is rational); the non-finite classes
  are explicit constructors.  No claim settled here depends on binary
  floating-point rounding.
* `bigdecimal::BigDecimal` is modelled by `ℚ` (decimal numbers are
  rationals; `BigDecimal` equality is value equality).
* Panicking calls (`unwrap`) are modelled as `Except Panic` errors.
* `serde_json::Value` is modelled by `Json`; its texts are parsed by an
  executable parser following the JSON grammar that `serde_json::from_str`
  accepts.  JSON numbers keep their source lexeme: no settled claim
  inspects a numeric payload of a JSON document.
-/

/-- `uuid::Uuid`: an opaque 128-bit identifier.  Conversion code moves it
structurally, so only equality matters here. -/
structure Uuid where
  val : ℕ
deriving DecidableEq

/-- `chrono::DateTime<FixedOffset>`: an instant with a fixed UTC offset.
Conversion code moves it structurally, so only equality matters here. -/
structure DateTimeFixedOffset where
  epochNanos : ℤ
  offsetSecs : ℤ
deriving DecidableEq

/-- A 64-bit IEEE double.  A finite double is represented by its exact
rational value; the non-finite classes are explicit. -/
inductive F64
  | finite (val : ℚ)
  | nan
  | posInf
  | negInf
deriving DecidableEq

/-- IEEE finiteness: everything except NaN and the two infinities. -/
def F64.isFinite : F64 → Bool
  | .finite _ => true
  | _ => false

/-- `bigdecimal::BigDecimal`, modelled by its exact rational value. -/
abbrev BigDecimal := ℚ

/-- `bigdecimal`'s `FromPrimitive::from_f64`: a finite double converts
exactly (finite binary64 values are decimal-representable); NaN and the
infinities have no decimal representation and yield `none`. -/
def BigDecimal.from_f64 : F64 → Option BigDecimal
  | .finite q => some q
  | _ => none

/-- `serde_json::Value`.  Object entries keep insertion order (the map
with preserved key order); numbers keep their source lexeme. -/
inductive Json
  | null
  | bool (b : Bool)
  | num (lexeme : String)
  | str (s : String)
  | arr (xs : List Json)
  | obj (kvs : List (String × Json))

/-- The panics the source can raise, one constructor per `unwrap` call
that can actually fail:
* `jsonFromStr`:  `serde_json::from_str(&value).unwrap()` on malformed text;
* `bigDecimalFromF64`: `BigDecimal::from_f64(value).unwrap()` on a
  non-finite double.
(`value.to_f64()` and `serde_json::to_string` never return an error for
these input types, so they are modelled as total.) -/
inductive Panic
  | jsonFromStr (input : String)
  | bigDecimalFromF64 (input : F64)
deriving DecidableEq

namespace serde_json

/-- JSON insignificant whitespace. -/
def isWsChar (c : Char) : Bool :=
  c = ' ' || c = '\t' || c = '\n' || c = '\r'

def skipWs : List Char → List Char
  | c :: cs => if isWsChar c then skipWs cs else c :: cs
  | [] => []

def isDigitChar (c : Char) : Bool :=
  '0' ≤ c && c ≤ '9'

/-- Longest digit run at the head of the input. -/
def spanDigits : List Char → List Char × List Char
  | c :: cs =>
    if isDigitChar c then
      let p := spanDigits cs
      (c :: p.1, p.2)
    else ([], c :: cs)
  | [] => ([], [])

def hexVal (c : Char) : Option ℕ :=
  if '0' ≤ c ∧ c ≤ '9' then some (c.toNat - '0'.toNat)
  else if 'a' ≤ c ∧ c ≤ 'f' then some (c.toNat - 'a'.toNat + 10)
  else if 'A' ≤ c ∧ c ≤ 'F' then some (c.toNat - 'A'.toNat + 10)
  else none

/-- Body of a JSON string after the opening quote: unescapes the escape
sequences `serde_json` accepts (including `\uXXXX` with surrogate
pairing), rejects raw control characters and lone surrogates.  `fuel`
bounds the recursion; every step consumes at least one input character,
so callers supply the input length plus one. -/
def parseStringBody : ℕ → List Char → List Char → Option (String × List Char)
  | 0, _, _ => none
  | _ + 1, acc, '"' :: rest => some (String.mk acc.reverse, rest)
  | fuel + 1, acc, '\\' :: c :: rest =>
    (match c, rest with
    | '"', _ => parseStringBody fuel ('"' :: acc) rest
    | '\\', _ => parseStringBody fuel ('\\' :: acc) rest
    | '/', _ => parseStringBody fuel ('/' :: acc) rest
    | 'b', _ => parseStringBody fuel ('\x08' :: acc) rest
    | 'f', _ => parseStringBody fuel ('\x0c' :: acc) rest
    | 'n', _ => parseStringBody fuel ('\n' :: acc) rest
    | 'r', _ => parseStringBody fuel ('\x0d' :: acc) rest
    | 't', _ => parseStringBody fuel ('\t' :: acc) rest
    | 'u', h1 :: h2 :: h3 :: h4 :: rest' =>
      (match hexVal h1, hexVal h2, hexVal h3, hexVal h4, rest' with
      | some a, some b, some c1, some d, rest1 =>
        let n := ((a * 16 + b) * 16 + c1) * 16 + d
        if n < 0xd800 ∨ 0xe000 ≤ n then
          parseStringBody fuel (Char.ofNat n :: acc) rest1
        else if n ≤ 0xdbff then
          match rest1 with
          | '\\' :: 'u' :: g1 :: g2 :: g3 :: g4 :: rest2 =>
            match hexVal g1, hexVal g2, hexVal g3, hexVal g4 with
            | some a2, some b2, some c2, some d2 =>
              let m := ((a2 * 16 + b2) * 16 + c2) * 16 + d2
              if 0xdc00 ≤ m ∧ m ≤ 0xdfff then
                parseStringBody fuel
                  (Char.ofNat (0x10000 + (n - 0xd800) * 0x400 + (m - 0xdc00)) :: acc) rest2
              else none
            | _, _, _, _ => none
          | _ => none
        else none
      | _, _, _, _, _ => none)
    | _, _ => none)
  | fuel + 1, acc, c :: rest =>
    if c.toNat < 0x20 then none else parseStringBody fuel (c :: acc) rest
  | _ + 1, _, [] => none

/-- The decimal digits of a literal, as a natural number. -/
def digitsToNat (ds : List Char) : ℕ :=
  ds.foldl (fun acc c => acc * 10 + (c.toNat - '0'.toNat)) 0

/-- Does the decimal magnitude `sig · 10 ^ e` (with `sig` a digit string)
convert to a finite binary64 value?  `serde_json` computes the double for
a number token and reports `NumberOutOfRange` when it comes out infinite;
binary64 round-to-nearest overflows to infinity exactly from
`2 ^ 1024 - 2 ^ 970` upward (the midpoint above the largest finite
double), so the cutoff is placed at that exact threshold.
`serde_json`'s default (non-`float_roundtrip`) path evaluates the double
in binary64 arithmetic, so inputs within a rounding error of the
threshold could land on the other side of it; no settled claim evaluates
such an input.  Significant digits are counted first so that an
astronomical exponent is decided without computing `10 ^ e`. -/
def numberInF64Range (sig : List Char) (e : ℤ) : Bool :=
  let stripped := sig.dropWhile (fun c => c = '0')
  if stripped.isEmpty then true
  else
    let d : ℤ := stripped.length
    if d + e ≤ 308 then true
    else if 309 ≤ d - 1 + e then false
    else
      let m := digitsToNat sig
      if 0 ≤ e then decide (m * 10 ^ e.toNat < 2 ^ 1024 - 2 ^ 970)
      else decide (m < (2 ^ 1024 - 2 ^ 970) * 10 ^ (-e).toNat)

/-- A JSON number token: `-? int frac? exp?` with no leading zeros.
Returns the lexeme and the remaining input.  With `checkRange` set (the
`from_str` behaviour) a token whose value has no finite binary64
representation is rejected, as `serde_json`'s `NumberOutOfRange`. -/
def parseNumber (checkRange : Bool) (cs : List Char) :
    Option (String × List Char) :=
  let signed : Bool × List Char :=
    match cs with
    | '-' :: cs' => (true, cs')
    | _ => (false, cs)
  let intp : Option (List Char × List Char) :=
    match signed.2 with
    | '0' :: cs1 =>
      (match cs1 with
      | c :: _ => if isDigitChar c then none else some (['0'], cs1)
      | [] => some (['0'], []))
    | c :: _ =>
      if isDigitChar c then some (spanDigits signed.2) else none
    | [] => none
  match intp with
  | none => none
  | some (intPart, cs2) =>
    let fr : Option (List Char × List Char) :=
      match cs2 with
      | '.' :: cs3 =>
        let p := spanDigits cs3
        if p.1.isEmpty then none else some (p.1, p.2)
      | _ => some ([], cs2)
    match fr with
    | none => none
    | some (fracPart, cs4) =>
      let ex : Option (Option (Char × List Char × List Char) × List Char) :=
        match cs4 with
        | e :: cs5 =>
          if e = 'e' ∨ e = 'E' then
            let sgn : List Char × List Char :=
              match cs5 with
              | '+' :: cs6 => (['+'], cs6)
              | '-' :: cs6 => (['-'], cs6)
              | _ => ([], cs5)
            let p := spanDigits sgn.2
            if p.1.isEmpty then none else some (some (e, sgn.1, p.1), p.2)
          else some (none, cs4)
        | [] => some (none, [])
      match ex with
      | none => none
      | some (expPart, cs7) =>
        let expVal : ℤ :=
          match expPart with
          | none => 0
          | some (_, sgn, ds) =>
            if sgn = ['-'] then -(digitsToNat ds : ℤ) else (digitsToNat ds : ℤ)
        if checkRange && !numberInF64Range (intPart ++ fracPart)
            (expVal - fracPart.length) then
          none
        else
          some
            (String.mk
              ((if signed.1 then ['-'] else []) ++ intPart ++
                (if fracPart.isEmpty then [] else '.' :: fracPart) ++
                (match expPart with
                | none => []
                | some (ec, sgn, ds) => ec :: (sgn ++ ds))), cs7)

/-- `serde_json`'s map insert with preserved insertion order: an existing
key keeps its position and gets the new value, a new key is appended. -/
def mapInsert (kvs : List (String × Json)) (k : String) (v : Json) :
    List (String × Json) :=
  match kvs with
  | [] => [(k, v)]
  | (k', v') :: rest => if k' = k then (k', v) :: rest else (k', v') :: mapInsert rest k v

mutual

/-- One JSON value at the head of the input (no leading whitespace).
`fuel` bounds the recursion; `from_str` supplies enough for its input.
`rd` is `serde_json`'s `remaining_depth`: entering an array or object
decrements it, and reaching zero is the `RecursionLimitExceeded` error
(`from_str` starts it at 128, so the 128th nested container fails).
`checkRange` enables the `NumberOutOfRange` check on number tokens. -/
def parseValue (checkRange : Bool) :
    ℕ → ℕ → List Char → Option (Json × List Char)
  | 0, _, _ => none
  | _ + 1, _, 'n' :: 'u' :: 'l' :: 'l' :: rest => some (.null, rest)
  | _ + 1, _, 't' :: 'r' :: 'u' :: 'e' :: rest => some (.bool true, rest)
  | _ + 1, _, 'f' :: 'a' :: 'l' :: 's' :: 'e' :: rest => some (.bool false, rest)
  | _ + 1, _, '"' :: rest =>
    (parseStringBody (rest.length + 1) [] rest).map fun p => (.str p.1, p.2)
  | fuel + 1, rd, '[' :: rest =>
    if rd - 1 = 0 then none
    else
      (match skipWs rest with
      | ']' :: rest1 => some (.arr [], rest1)
      | cs1 => parseArrayTail checkRange fuel (rd - 1) cs1 [])
  | fuel + 1, rd, '{' :: rest =>
    if rd - 1 = 0 then none
    else
      (match skipWs rest with
      | '\x7d' :: rest1 => some (.obj [], rest1)
      | cs1 => parseObjectTail checkRange fuel (rd - 1) cs1 [])
  | _ + 1, _, cs =>
    (parseNumber checkRange cs).map fun p => (.num p.1, p.2)

/-- Elements of a non-empty JSON array, already inside the brackets
(`rd` is the depth budget remaining inside this array). -/
def parseArrayTail (checkRange : Bool) :
    ℕ → ℕ → List Char → List Json → Option (Json × List Char)
  | 0, _, _, _ => none
  | fuel + 1, rd, cs, acc =>
    match parseValue checkRange fuel rd cs with
    | none => none
    | some (v, rest) =>
      match skipWs rest with
      | ',' :: rest1 => parseArrayTail checkRange fuel rd (skipWs rest1) (v :: acc)
      | ']' :: rest1 => some (.arr (v :: acc).reverse, rest1)
      | _ => none

/-- Entries of a non-empty JSON object, already inside the braces
(`rd` is the depth budget remaining inside this object). -/
def parseObjectTail (checkRange : Bool) :
    ℕ → ℕ → List Char → List (String × Json) → Option (Json × List Char)
  | 0, _, _, _ => none
  | fuel + 1, rd, cs, acc =>
    match cs with
    | '"' :: rest =>
      (match parseStringBody (rest.length + 1) [] rest with
      | none => none
      | some (k, rest1) =>
        match skipWs rest1 with
        | ':' :: rest2 =>
          (match parseValue checkRange fuel rd (skipWs rest2) with
          | none => none
          | some (v, rest3) =>
            match skipWs rest3 with
            | ',' :: rest4 =>
              parseObjectTail checkRange fuel rd (skipWs rest4) (mapInsert acc k v)
            | '\x7d' :: rest4 => some (.obj (mapInsert acc k v), rest4)
            | _ => none)
        | _ => none)
    | _ => none

end

/-- `serde_json::from_str::<serde_json::Value>`: parse one JSON document,
allowing surrounding whitespace and nothing else, with `serde_json`'s
two non-grammar error paths: the 128-level recursion limit
(`remaining_depth` starts at 128, each array/object entry decrements it,
zero is the error) and the `NumberOutOfRange` rejection of number tokens
with no finite binary64 value. -/
def from_str (s : String) : Option Json :=
  match parseValue true (2 * s.length + 8) 128 (skipWs s.data) with
  | some (v, rest) => if (skipWs rest).isEmpty then some v else none
  | none => none

def hexDigit (n : ℕ) : Char :=
  if n < 10 then Char.ofNat ('0'.toNat + n) else Char.ofNat ('a'.toNat + n - 10)

/-- One character of JSON string output, with the escapes `serde_json`
emits: `"` and `\` are escaped, control characters use the short escapes
or `\u00XX`, everything else is copied. -/
def escapeChar (c : Char) : String :=
  if c = '"' then "\\\""
  else if c = '\\' then "\\\\"
  else if c.toNat < 0x20 then
    match c with
    | '\x08' => "\\b"
    | '\t' => "\\t"
    | '\n' => "\\n"
    | '\x0c' => "\\f"
    | '\x0d' => "\\r"
    | _ => "\\u00" ++ String.mk [hexDigit (c.toNat / 16), hexDigit (c.toNat % 16)]
  else String.singleton c

def renderString (s : String) : String :=
  "\"" ++ String.join (s.data.map escapeChar) ++ "\""

mutual

/-- `serde_json::to_string` on a `serde_json::Value`: compact JSON text.
Its only error sources (a failing `Serialize` impl, non-string map keys)
cannot arise for `serde_json::Value`, so it is total. -/
def to_string : Json → String
  | .null => "null"
  | .bool true => "true"
  | .bool false => "false"
  | .num lex => lex
  | .str s => renderString s
  | .arr xs => "[" ++ renderElems xs ++ "]"
  | .obj kvs => "\x7b" ++ renderEntries kvs ++ "\x7d"

def renderElems : List Json → String
  | [] => ""
  | [x] => to_string x
  | x :: xs => to_string x ++ "," ++ renderElems xs

def renderEntries : List (String × Json) → String
  | [] => ""
  | [kv] => renderString kv.1 ++ ":" ++ to_string kv.2
  | kv :: kvs => renderString kv.1 ++ ":" ++ to_string kv.2 ++ "," ++ renderEntries kvs

end

end serde_json

/-- Modelled from the spec: "well-formed JSON" text.  Plain JSON grammar
acceptance of one document with surrounding whitespace, with no
implementation limits: the depth budget exceeds any depth the input can
reach (each nesting level consumes at least one character) and numeric
literals are not range-checked.  This states what "well-formed" means
independently of `serde_json::from_str`'s recursion limit and
`NumberOutOfRange` check. -/
def well_formed_json (s : String) : Bool :=
  match serde_json.parseValue false (2 * s.length + 8) (s.length + 2)
      (serde_json.skipWs s.data) with
  | some (_, rest) => (serde_json.skipWs rest).isEmpty
  | none => false

namespace prisma_models

/-- The query engine's canonical scalar value (`prisma_models::PrismaValue`),
a frozen external input of this core (spec §6): `Int` and `BigInt` carry
`i64`, `Float` carries a `BigDecimal`, `Json` carries JSON *text*, `List`
and `Object` recurse, `Bytes` carries raw bytes.  Modelled exactly as the
conversion code in `src/prisma_value.rs` consumes and produces it. -/
inductive PrismaValue
  | String (value : String)
  | Boolean (value : Bool)
  | Enum (value : String)
  | Int (value : ℤ)
  | Uuid (value : Uuid)
  | List (value : List PrismaValue)
  | Json (value : String)
  | Xml (value : String)
  | Object (value : List (String × PrismaValue))
  | Null
  | DateTime (value : DateTimeFixedOffset)
  | Float (value : BigDecimal)
  | BigInt (value : ℤ)
  | Bytes (value : List ℕ)

end prisma_models

namespace query_core

/-- The engine's canonical result-tree node (`query_core::Item`), a frozen
external input (spec §6).  `Map` is an `IndexMap` (ordered, unique keys),
modelled as its entry sequence; `Ref(Arc<Item>)` is a shared sub-tree,
modelled as the referenced tree together with the `Arc`'s strong count at
the moment of resolution. -/
inductive Item
  | Map (kvs : List (String × Item))
  | List (xs : List Item)
  | Value (v : prisma_models.PrismaValue)
  | Json (j : Json)
  | Ref (strong : ℕ) (t : Item)

end query_core

/-- The Rust-friendly `PrismaValue` of `src/prisma_value.rs`: same variants
as the canonical value, except `Int` carries `i32`, `Float` carries `f64`
and `Json` carries a parsed `serde_json::Value`. -/
inductive PrismaValue
  | String (value : String)
  | Boolean (value : Bool)
  | Enum (value : String)
  | Int (value : ℤ)
  | Uuid (value : Uuid)
  | List (value : List PrismaValue)
  | Json (value : Json)
  | Xml (value : String)
  | Object (value : List (String × PrismaValue))
  | Null
  | DateTime (value : DateTimeFixedOffset)
  | Float (value : F64)
  | BigInt (value : ℤ)
  | Bytes (value : List ℕ)

/-- The Rust-friendly `Item` of `src/prisma_value.rs`: the resolved result
tree, with no `Ref` nodes. -/
inductive Item
  | Map (kvs : List (String × Item))
  | List (xs : List Item)
  | Value (v : PrismaValue)
  | Json (j : Json)

/-- Rust's `value as i32` on an `i64` value: two's-complement truncation
to 32 bits. -/
def wrap_i32 (n : ℤ) : ℤ :=
  (n + 2 ^ 31) % 2 ^ 32 - 2 ^ 31

mutual

/-- `impl From<prisma_models::PrismaValue> for PrismaValue`
(`src/prisma_value.rs` lines 72-97), the canonical → Value direction.
`to_f64` is `bigdecimal`'s decimal → binary64 conversion, left as a
parameter: it is total (`ToPrimitive::to_f64` on a `BigDecimal` never
returns `None`, so its `unwrap` never fires) and no settled claim depends
on its rounding.  The two `unwrap`s that can fire are the `Except`
errors. -/
def from_canonical (to_f64 : BigDecimal → F64) :
    prisma_models.PrismaValue → Except Panic PrismaValue
  | .String value => .ok (.String value)
  | .Boolean value => .ok (.Boolean value)
  | .Enum value => .ok (.Enum value)
  | .Int value => .ok (.Int (wrap_i32 value))
  | .Uuid value => .ok (.Uuid value)
  | .List value => (from_canonical_list to_f64 value).map PrismaValue.List
  | .Json value =>
    (match serde_json.from_str value with
    | some j => .ok (.Json j)
    | none => .error (.jsonFromStr value))
  | .Xml value => .ok (.Xml value)
  | .Object value => (from_canonical_obj to_f64 value).map PrismaValue.Object
  | .Null => .ok .Null
  | .DateTime value => .ok (.DateTime value)
  | .Float value => .ok (.Float (to_f64 value))
  | .BigInt value => .ok (.BigInt value)
  | .Bytes value => .ok (.Bytes value)

/-- `value.into_iter().map(Into::into).collect()` for a canonical list. -/
def from_canonical_list (to_f64 : BigDecimal → F64) :
    List prisma_models.PrismaValue → Except Panic (List PrismaValue)
  | [] => .ok []
  | x :: xs =>
    match from_canonical to_f64 x with
    | .error e => .error e
    | .ok x' =>
      match from_canonical_list to_f64 xs with
      | .error e => .error e
      | .ok xs' => .ok (x' :: xs')

/-- `value.into_iter().map(|(k, v)| (k, v.into())).collect()` for a
canonical object. -/
def from_canonical_obj (to_f64 : BigDecimal → F64) :
    List (String × prisma_models.PrismaValue) →
      Except Panic (List (String × PrismaValue))
  | [] => .ok []
  | (k, v) :: kvs =>
    match from_canonical to_f64 v with
    | .error e => .error e
    | .ok v' =>
      match from_canonical_obj to_f64 kvs with
      | .error e => .error e
      | .ok kvs' => .ok ((k, v') :: kvs')

end

mutual

/-- `impl Into<prisma_models::PrismaValue> for PrismaValue`
(`src/prisma_value.rs` lines 99-126), the Value → canonical direction.
`BigDecimal::from_f64(value).unwrap()` on a non-finite double is the
`Except` error; `serde_json::to_string(&value).unwrap()` cannot fail for a
`serde_json::Value` and is total. -/
def to_canonical : PrismaValue → Except Panic prisma_models.PrismaValue
  | .String value => .ok (.String value)
  | .Boolean value => .ok (.Boolean value)
  | .Enum value => .ok (.Enum value)
  | .Int value => .ok (.Int value)
  | .Uuid value => .ok (.Uuid value)
  | .List value => (to_canonical_list value).map prisma_models.PrismaValue.List
  | .Json value => .ok (.Json (serde_json.to_string value))
  | .Xml value => .ok (.Xml value)
  | .Object value => (to_canonical_obj value).map prisma_models.PrismaValue.Object
  | .Null => .ok .Null
  | .DateTime value => .ok (.DateTime value)
  | .Float value =>
    (match BigDecimal.from_f64 value with
    | some d => .ok (.Float d)
    | none => .error (.bigDecimalFromF64 value))
  | .BigInt value => .ok (.BigInt value)
  | .Bytes value => .ok (.Bytes value)

/-- `value.into_iter().map(Into::into).collect()` for a Value list. -/
def to_canonical_list : List PrismaValue → Except Panic (List prisma_models.PrismaValue)
  | [] => .ok []
  | x :: xs =>
    match to_canonical x with
    | .error e => .error e
    | .ok x' =>
      match to_canonical_list xs with
      | .error e => .error e
      | .ok xs' => .ok (x' :: xs')

/-- `value.into_iter().map(|(k, v)| (k, v.into())).collect()` for a Value
object. -/
def to_canonical_obj : List (String × PrismaValue) →
    Except Panic (List (String × prisma_models.PrismaValue))
  | [] => .ok []
  | (k, v) :: kvs =>
    match to_canonical v with
    | .error e => .error e
    | .ok v' =>
      match to_canonical_obj kvs with
      | .error e => .error e
      | .ok kvs' => .ok ((k, v') :: kvs')

end

mutual

/-- Node count of a canonical result tree, ignoring the `Arc` strong
counts: the measure that resolution decreases. -/
def qsize : query_core.Item → ℕ
  | .Map kvs => 1 + qsizeMap kvs
  | .List xs => 1 + qsizeList xs
  | .Value _ => 1
  | .Json _ => 1
  | .Ref _ t => 1 + qsize t

def qsizeMap : List (String × query_core.Item) → ℕ
  | [] => 0
  | kv :: kvs => 1 + qsize kv.2 + qsizeMap kvs

def qsizeList : List query_core.Item → ℕ
  | [] => 0
  | x :: xs => 1 + qsize x + qsizeList xs

end

mutual

/-- `query_core::Item`'s derived `Clone` (the `(*arc).to_owned()` call):
`Map`/`List` copy their children, scalar and JSON payloads are copied by
value, and a nested `Ref` clones its `Arc` handle — the sub-tree stays
shared and its strong count goes up by one. -/
def clone_item : query_core.Item → query_core.Item
  | .Map kvs => .Map (clone_item_map kvs)
  | .List xs => .List (clone_item_list xs)
  | .Value v => .Value v
  | .Json j => .Json j
  | .Ref strong t => .Ref (strong + 1) t

def clone_item_map :
    List (String × query_core.Item) → List (String × query_core.Item)
  | [] => []
  | (k, v) :: kvs => (k, clone_item v) :: clone_item_map kvs

def clone_item_list : List query_core.Item → List query_core.Item
  | [] => []
  | x :: xs => clone_item x :: clone_item_list xs

end

/-- Structural induction over the canonical result tree, with membership
hypotheses for `Map` and `List` children. -/
theorem query_core.Item.item_ind {P : query_core.Item → Prop}
    (hMap : ∀ kvs, (∀ kv ∈ kvs, P kv.2) → P (.Map kvs))
    (hList : ∀ xs, (∀ x ∈ xs, P x) → P (.List xs))
    (hValue : ∀ v, P (.Value v))
    (hJson : ∀ j, P (.Json j))
    (hRef : ∀ strong t, P t → P (.Ref strong t)) : ∀ t, P t
  | .Map kvs => hMap kvs fun kv hkv =>
      query_core.Item.item_ind hMap hList hValue hJson hRef kv.2
  | .List xs => hList xs fun x hx =>
      query_core.Item.item_ind hMap hList hValue hJson hRef x
  | .Value v => hValue v
  | .Json j => hJson j
  | .Ref strong t => hRef strong t
      (query_core.Item.item_ind hMap hList hValue hJson hRef t)
termination_by t => sizeOf t
decreasing_by
  · have h1 := List.sizeOf_lt_of_mem hkv
    obtain ⟨k, v⟩ := kv
    simp only [query_core.Item.Map.sizeOf_spec, Prod.mk.sizeOf_spec] at *
    omega
  · have h1 := List.sizeOf_lt_of_mem hx
    simp only [query_core.Item.List.sizeOf_spec]
    omega
  · simp only [query_core.Item.Ref.sizeOf_spec]
    omega

/-- Cloning preserves the `qsize` measure: the strong counts it bumps are
not counted. -/
theorem qsize_clone : ∀ t : query_core.Item, qsize (clone_item t) = qsize t := by
  refine query_core.Item.item_ind ?_ ?_ ?_ ?_ ?_
  · intro kvs ih
    simp only [clone_item, qsize]
    congr 1
    induction kvs with
    | nil => rfl
    | cons kv rest ihrest =>
      have hkv := ih kv (List.mem_cons_self kv rest)
      obtain ⟨k, v⟩ := kv
      simp only [clone_item_map, qsizeMap]
      rw [hkv, ihrest (fun kv h => ih kv (List.mem_cons_of_mem _ h))]
  · intro xs ih
    simp only [clone_item, qsize]
    congr 1
    induction xs with
    | nil => rfl
    | cons x rest ihrest =>
      simp only [clone_item_list, qsizeList]
      rw [ih x (List.mem_cons_self x rest),
        ihrest (fun x h => ih x (List.mem_cons_of_mem _ h))]
  · intro v; rfl
  · intro j; rfl
  · intro strong t ih
    simp only [clone_item, qsize, ih]

/-- `Arc::try_unwrap(arc).unwrap_or_else(|arc| (*arc).to_owned())`:
reclaim the sub-tree when this holder is the last owner (strong count 1),
otherwise clone it. -/
def arc_unwrap_or_clone (strong : ℕ) (t : query_core.Item) : query_core.Item :=
  if strong = 1 then t else clone_item t

theorem qsize_arc_unwrap_or_clone (strong : ℕ) (t : query_core.Item) :
    qsize (arc_unwrap_or_clone strong t) = qsize t := by
  unfold arc_unwrap_or_clone
  split
  · rfl
  · exact qsize_clone t

mutual

/-- `impl From<query_core::Item> for Item` (`src/prisma_value.rs` lines
47-63), the Item Resolver: recurse through `Map`/`List` in entry order,
convert `Value` leaves with `from_canonical`, pass `Json` leaves through,
and resolve `Ref` by `Arc::try_unwrap(..).unwrap_or_else(clone)`. -/
def resolve_item (to_f64 : BigDecimal → F64) :
    query_core.Item → Except Panic Item
  | .Map kvs => (resolve_map to_f64 kvs).map Item.Map
  | .List xs => (resolve_list to_f64 xs).map Item.List
  | .Value v => (from_canonical to_f64 v).map Item.Value
  | .Json j => .ok (.Json j)
  | .Ref strong t => resolve_item to_f64 (arc_unwrap_or_clone strong t)
termination_by t => qsize t
decreasing_by
  · simp only [qsize]; omega
  · simp only [qsize]; omega
  · rw [qsize_arc_unwrap_or_clone]; simp only [qsize]; omega

/-- `map.into_iter().map(|(k, v)| (k, v.into())).collect()`. -/
def resolve_map (to_f64 : BigDecimal → F64) :
    List (String × query_core.Item) → Except Panic (List (String × Item))
  | [] => .ok []
  | (k, v) :: kvs =>
    match resolve_item to_f64 v with
    | .error e => .error e
    | .ok v' =>
      match resolve_map to_f64 kvs with
      | .error e => .error e
      | .ok kvs' => .ok ((k, v') :: kvs')
termination_by kvs => qsizeMap kvs
decreasing_by
  · simp only [qsizeMap]; omega
  · simp only [qsizeMap]; omega

/-- `list.into_iter().map(|v| v.into()).collect()`. -/
def resolve_list (to_f64 : BigDecimal → F64) :
    List query_core.Item → Except Panic (List Item)
  | [] => .ok []
  | x :: xs =>
    match resolve_item to_f64 x with
    | .error e => .error e
    | .ok x' =>
      match resolve_list to_f64 xs with
      | .error e => .error e
      | .ok xs' => .ok (x' :: xs')
termination_by xs => qsizeList xs
decreasing_by
  · simp only [qsizeList]; omega
  · simp only [qsizeList]; omega

end

mutual

/-- `p` holds at every node of a canonical value (the node itself, and
recursively every `List` element and `Object` entry value). -/
def check_nodes_canonical (p : prisma_models.PrismaValue → Bool) :
    prisma_models.PrismaValue → Bool
  | .List xs => p (.List xs) && check_nodes_canonical_list p xs
  | .Object kvs => p (.Object kvs) && check_nodes_canonical_obj p kvs
  | v => p v

def check_nodes_canonical_list (p : prisma_models.PrismaValue → Bool) :
    List prisma_models.PrismaValue → Bool
  | [] => true
  | x :: xs => check_nodes_canonical p x && check_nodes_canonical_list p xs

def check_nodes_canonical_obj (p : prisma_models.PrismaValue → Bool) :
    List (String × prisma_models.PrismaValue) → Bool
  | [] => true
  | (_, v) :: kvs => check_nodes_canonical p v && check_nodes_canonical_obj p kvs

end

mutual

/-- `p` holds at every node of a Value (the node itself, and recursively
every `List` element and `Object` entry value). -/
def check_nodes_value (p : PrismaValue → Bool) : PrismaValue → Bool
  | .List xs => p (.List xs) && check_nodes_value_list p xs
  | .Object kvs => p (.Object kvs) && check_nodes_value_obj p kvs
  | v => p v

def check_nodes_value_list (p : PrismaValue → Bool) : List PrismaValue → Bool
  | [] => true
  | x :: xs => check_nodes_value p x && check_nodes_value_list p xs

def check_nodes_value_obj (p : PrismaValue → Bool) :
    List (String × PrismaValue) → Bool
  | [] => true
  | (_, v) :: kvs => check_nodes_value p v && check_nodes_value_obj p kvs

end

/-- Leaf test: the node is not a `Float` and not a `Json`. -/
def not_float_json_canonical : prisma_models.PrismaValue → Bool
  | .Float _ => false
  | .Json _ => false
  | _ => true

/-- No node of the canonical value is a `Float` or a `Json`. -/
def no_float_json_canonical (v : prisma_models.PrismaValue) : Bool :=
  check_nodes_canonical not_float_json_canonical v

/-- Leaf test: an `Int` node's payload is within signed 32-bit range. -/
def int_fits_32_canonical : prisma_models.PrismaValue → Bool
  | .Int n => decide (-(2 ^ 31) ≤ n ∧ n < 2 ^ 31)
  | _ => true

/-- Every `Int` node of the canonical value is within signed 32-bit
range. -/
def ints_fit_32_canonical (v : prisma_models.PrismaValue) : Bool :=
  check_nodes_canonical int_fits_32_canonical v

/-- Leaf test: the node is not a `Float` and not a `Json`. -/
def not_float_json_value : PrismaValue → Bool
  | .Float _ => false
  | .Json _ => false
  | _ => true

/-- No node of the Value is a `Float` or a `Json`. -/
def no_float_json_value (v : PrismaValue) : Bool :=
  check_nodes_value not_float_json_value v

/-- Leaf test: an `Int` node's payload is within signed 32-bit range —
the invariant Rust's `i32` payload type enforces. -/
def int_fits_32_value : PrismaValue → Bool
  | .Int n => decide (-(2 ^ 31) ≤ n ∧ n < 2 ^ 31)
  | _ => true

/-- Every `Int` node of the Value is within signed 32-bit range. -/
def ints_fit_32_value (v : PrismaValue) : Bool :=
  check_nodes_value int_fits_32_value v

/-- Leaf test: a `Float` node's payload is a finite double. -/
def float_finite_value : PrismaValue → Bool
  | .Float x => x.isFinite
  | _ => true

/-- Every `Float` node of the Value carries a finite double. -/
def floats_finite_value (v : PrismaValue) : Bool :=
  check_nodes_value float_finite_value v

/-- The serde data model as a serializer sees it: one constructor per
`Serializer` call the serialized types can make.  `uuidStr`/`dtStr` stand
for the `serialize_str` calls of `uuid::Uuid` (hyphenated form) and
`chrono::DateTime<FixedOffset>` (RFC 3339 form) — the texts themselves
are opaque here; `numberW` stands for the `serialize_i64`/`u64`/`f64`
call of a `serde_json::Number`, keeping the number's lexeme. -/
inductive Wire
  | noneW
  | someW (w : Wire)
  | unitW
  | str (s : String)
  | boolW (b : Bool)
  | i32 (n : ℤ)
  | i64 (n : ℤ)
  | f64 (x : F64)
  | u8 (n : ℕ)
  | seq (ws : List Wire)
  | mapW (kvs : List (String × Wire))
  | uuidStr (u : Uuid)
  | dtStr (d : DateTimeFixedOffset)
  | numberW (lexeme : String)

/-- `serialize_null` (`src/prisma_value.rs` lines 65-70):
`Option::<()>::None.serialize(serializer)`. -/
def serialize_null : Wire := Wire.noneW

/-- serde's `Serialize` for `Option<()>`: `None` serializes with
`serialize_none`, `Some(())` with `serialize_some` of unit. -/
def serialize_option_unit : Option Unit → Wire
  | none => Wire.noneW
  | some _ => Wire.someW Wire.unitW

mutual

/-- serde's `Serialize` for `serde_json::Value`: `Null` is
`serialize_unit`, arrays are sequences, objects are maps with string
keys. -/
def serialize_json : Json → Wire
  | .null => .unitW
  | .bool b => .boolW b
  | .num lexeme => .numberW lexeme
  | .str s => .str s
  | .arr xs => .seq (serialize_json_list xs)
  | .obj kvs => .mapW (serialize_json_obj kvs)

def serialize_json_list : List Json → List Wire
  | [] => []
  | x :: xs => serialize_json x :: serialize_json_list xs

def serialize_json_obj : List (String × Json) → List (String × Wire)
  | [] => []
  | (k, v) :: kvs => (k, serialize_json v) :: serialize_json_obj kvs

end

mutual

/-- The derived `Serialize` of `PrismaValue` with `#[serde(untagged)]`
(`src/prisma_value.rs` lines 16-34): every variant serializes as its bare
payload — no tag — except `Null`, whose
`#[serde(serialize_with = "serialize_null")]` override emits the explicit
no-value marker.  An `Object` is a `Vec<(String, PrismaValue)>`: a
sequence of 2-tuples, each itself a 2-element sequence. -/
def serialize_value : PrismaValue → Wire
  | .String value => .str value
  | .Boolean value => .boolW value
  | .Enum value => .str value
  | .Int value => .i32 value
  | .Uuid value => .uuidStr value
  | .List value => .seq (serialize_value_list value)
  | .Json value => serialize_json value
  | .Xml value => .str value
  | .Object value => .seq (serialize_value_obj value)
  | .Null => serialize_null
  | .DateTime value => .dtStr value
  | .Float value => .f64 value
  | .BigInt value => .i64 value
  | .Bytes value => .seq (value.map Wire.u8)

def serialize_value_list : List PrismaValue → List Wire
  | [] => []
  | x :: xs => serialize_value x :: serialize_value_list xs

def serialize_value_obj : List (String × PrismaValue) → List Wire
  | [] => []
  | (k, v) :: kvs => .seq [.str k, serialize_value v] :: serialize_value_obj kvs

end

/-- Structural induction over the canonical value, with membership
hypotheses for `List` elements and `Object` entry values. -/
theorem prisma_models.PrismaValue.canonical_value_ind {P : prisma_models.PrismaValue → Prop}
    (hString : ∀ s, P (.String s))
    (hBoolean : ∀ b, P (.Boolean b))
    (hEnum : ∀ s, P (.Enum s))
    (hInt : ∀ n, P (.Int n))
    (hUuid : ∀ u, P (.Uuid u))
    (hList : ∀ xs, (∀ x ∈ xs, P x) → P (.List xs))
    (hJson : ∀ s, P (.Json s))
    (hXml : ∀ s, P (.Xml s))
    (hObject : ∀ kvs, (∀ kv ∈ kvs, P kv.2) → P (.Object kvs))
    (hNull : P .Null)
    (hDateTime : ∀ d, P (.DateTime d))
    (hFloat : ∀ d, P (.Float d))
    (hBigInt : ∀ n, P (.BigInt n))
    (hBytes : ∀ bs, P (.Bytes bs)) : ∀ v, P v
  | .String s => hString s
  | .Boolean b => hBoolean b
  | .Enum s => hEnum s
  | .Int n => hInt n
  | .Uuid u => hUuid u
  | .List xs => hList xs fun x hx =>
      prisma_models.PrismaValue.canonical_value_ind hString hBoolean hEnum hInt hUuid hList
        hJson hXml hObject hNull hDateTime hFloat hBigInt hBytes x
  | .Json s => hJson s
  | .Xml s => hXml s
  | .Object kvs => hObject kvs fun kv hkv =>
      prisma_models.PrismaValue.canonical_value_ind hString hBoolean hEnum hInt hUuid hList
        hJson hXml hObject hNull hDateTime hFloat hBigInt hBytes kv.2
  | .Null => hNull
  | .DateTime d => hDateTime d
  | .Float d => hFloat d
  | .BigInt n => hBigInt n
  | .Bytes bs => hBytes bs
termination_by v => sizeOf v
decreasing_by
  · have h1 := List.sizeOf_lt_of_mem hx
    simp only [prisma_models.PrismaValue.List.sizeOf_spec]
    omega
  · have h1 := List.sizeOf_lt_of_mem hkv
    obtain ⟨k, v⟩ := kv
    simp only [prisma_models.PrismaValue.Object.sizeOf_spec, Prod.mk.sizeOf_spec] at *
    omega

/-- Structural induction over the Value, with membership hypotheses for
`List` elements and `Object` entry values. -/
theorem PrismaValue.value_ind {P : PrismaValue → Prop}
    (hString : ∀ s, P (.String s))
    (hBoolean : ∀ b, P (.Boolean b))
    (hEnum : ∀ s, P (.Enum s))
    (hInt : ∀ n, P (.Int n))
    (hUuid : ∀ u, P (.Uuid u))
    (hList : ∀ xs, (∀ x ∈ xs, P x) → P (.List xs))
    (hJson : ∀ j, P (.Json j))
    (hXml : ∀ s, P (.Xml s))
    (hObject : ∀ kvs, (∀ kv ∈ kvs, P kv.2) → P (.Object kvs))
    (hNull : P .Null)
    (hDateTime : ∀ d, P (.DateTime d))
    (hFloat : ∀ x, P (.Float x))
    (hBigInt : ∀ n, P (.BigInt n))
    (hBytes : ∀ bs, P (.Bytes bs)) : ∀ v, P v
  | .String s => hString s
  | .Boolean b => hBoolean b
  | .Enum s => hEnum s
  | .Int n => hInt n
  | .Uuid u => hUuid u
  | .List xs => hList xs fun x hx =>
      PrismaValue.value_ind hString hBoolean hEnum hInt hUuid hList
        hJson hXml hObject hNull hDateTime hFloat hBigInt hBytes x
  | .Json j => hJson j
  | .Xml s => hXml s
  | .Object kvs => hObject kvs fun kv hkv =>
      PrismaValue.value_ind hString hBoolean hEnum hInt hUuid hList
        hJson hXml hObject hNull hDateTime hFloat hBigInt hBytes kv.2
  | .Null => hNull
  | .DateTime d => hDateTime d
  | .Float x => hFloat x
  | .BigInt n => hBigInt n
  | .Bytes bs => hBytes bs
termination_by v => sizeOf v
decreasing_by
  · have h1 := List.sizeOf_lt_of_mem hx
    simp only [PrismaValue.List.sizeOf_spec]
    omega
  · have h1 := List.sizeOf_lt_of_mem hkv
    obtain ⟨k, v⟩ := kv
    simp only [PrismaValue.Object.sizeOf_spec, Prod.mk.sizeOf_spec] at *
    omega

theorem check_nodes_canonical_list_iff (p : prisma_models.PrismaValue → Bool)
    (xs : List prisma_models.PrismaValue) :
    check_nodes_canonical_list p xs = true ↔
      ∀ x ∈ xs, check_nodes_canonical p x = true := by
  induction xs with
  | nil => simp [check_nodes_canonical_list]
  | cons x rest ih => simp [check_nodes_canonical_list, ih]

theorem check_nodes_canonical_obj_iff (p : prisma_models.PrismaValue → Bool)
    (kvs : List (String × prisma_models.PrismaValue)) :
    check_nodes_canonical_obj p kvs = true ↔
      ∀ kv ∈ kvs, check_nodes_canonical p kv.2 = true := by
  induction kvs with
  | nil => simp [check_nodes_canonical_obj]
  | cons kv rest ih =>
    obtain ⟨k, v⟩ := kv
    simp [check_nodes_canonical_obj, ih]

theorem check_nodes_value_list_iff (p : PrismaValue → Bool)
    (xs : List PrismaValue) :
    check_nodes_value_list p xs = true ↔
      ∀ x ∈ xs, check_nodes_value p x = true := by
  induction xs with
  | nil => simp [check_nodes_value_list]
  | cons x rest ih => simp [check_nodes_value_list, ih]

theorem check_nodes_value_obj_iff (p : PrismaValue → Bool)
    (kvs : List (String × PrismaValue)) :
    check_nodes_value_obj p kvs = true ↔
      ∀ kv ∈ kvs, check_nodes_value p kv.2 = true := by
  induction kvs with
  | nil => simp [check_nodes_value_obj]
  | cons kv rest ih =>
    obtain ⟨k, v⟩ := kv
    simp [check_nodes_value_obj, ih]

/-- `value as i32` on an in-range value is the identity. -/
theorem wrap_i32_eq_self (n : ℤ) (h1 : -(2 ^ 31) ≤ n) (h2 : n < 2 ^ 31) :
    wrap_i32 n = n := by
  unfold wrap_i32
  omega

-- round-trip lemmas to append
theorem round_trip_canonical_list (to_f64 : BigDecimal → F64)
    (xs : List prisma_models.PrismaValue)
    (h : ∀ x ∈ xs,
      check_nodes_canonical not_float_json_canonical x = true →
      check_nodes_canonical int_fits_32_canonical x = true →
      ∃ w, from_canonical to_f64 x = .ok w ∧ to_canonical w = .ok x)
    (h1 : ∀ x ∈ xs, check_nodes_canonical not_float_json_canonical x = true)
    (h2 : ∀ x ∈ xs, check_nodes_canonical int_fits_32_canonical x = true) :
    ∃ ws, from_canonical_list to_f64 xs = .ok ws ∧ to_canonical_list ws = .ok xs := by
  induction xs with
  | nil => exact ⟨[], rfl, rfl⟩
  | cons x rest ih =>
    obtain ⟨w, hw1, hw2⟩ :=
      h x (List.mem_cons_self x rest) (h1 x (List.mem_cons_self x rest))
        (h2 x (List.mem_cons_self x rest))
    obtain ⟨ws, hws1, hws2⟩ :=
      ih (fun x hx => h x (List.mem_cons_of_mem _ hx))
        (fun x hx => h1 x (List.mem_cons_of_mem _ hx))
        (fun x hx => h2 x (List.mem_cons_of_mem _ hx))
    exact ⟨w :: ws, by simp [from_canonical_list, hw1, hws1],
      by simp [to_canonical_list, hw2, hws2]⟩

theorem round_trip_canonical_obj (to_f64 : BigDecimal → F64)
    (kvs : List (String × prisma_models.PrismaValue))
    (h : ∀ kv ∈ kvs,
      check_nodes_canonical not_float_json_canonical kv.2 = true →
      check_nodes_canonical int_fits_32_canonical kv.2 = true →
      ∃ w, from_canonical to_f64 kv.2 = .ok w ∧ to_canonical w = .ok kv.2)
    (h1 : ∀ kv ∈ kvs, check_nodes_canonical not_float_json_canonical kv.2 = true)
    (h2 : ∀ kv ∈ kvs, check_nodes_canonical int_fits_32_canonical kv.2 = true) :
    ∃ ws, from_canonical_obj to_f64 kvs = .ok ws ∧
      to_canonical_obj ws = .ok kvs := by
  induction kvs with
  | nil => exact ⟨[], rfl, rfl⟩
  | cons kv rest ih =>
    obtain ⟨w, hw1, hw2⟩ :=
      h kv (List.mem_cons_self kv rest) (h1 kv (List.mem_cons_self kv rest))
        (h2 kv (List.mem_cons_self kv rest))
    obtain ⟨ws, hws1, hws2⟩ :=
      ih (fun kv hkv => h kv (List.mem_cons_of_mem _ hkv))
        (fun kv hkv => h1 kv (List.mem_cons_of_mem _ hkv))
        (fun kv hkv => h2 kv (List.mem_cons_of_mem _ hkv))
    obtain ⟨k, v⟩ := kv
    exact ⟨(k, w) :: ws, by simp [from_canonical_obj, hw1, hws1],
      by simp [to_canonical_obj, hw2, hws2]⟩

/-- Canonical → Value → canonical: the round trip is exact on every
canonical value with no `Float`/`Json` node whose `Int` payloads fit in
32 bits. -/
theorem round_trip_from_then_to (to_f64 : BigDecimal → F64) :
    ∀ cv : prisma_models.PrismaValue,
      no_float_json_canonical cv = true →
      ints_fit_32_canonical cv = true →
      ∃ w, from_canonical to_f64 cv = .ok w ∧ to_canonical w = .ok cv := by
  unfold no_float_json_canonical ints_fit_32_canonical
  refine prisma_models.PrismaValue.canonical_value_ind ?_ ?_ ?_ ?_ ?_ ?_ ?_ ?_ ?_ ?_ ?_ ?_ ?_ ?_
  · exact fun s _ _ => ⟨.String s, rfl, rfl⟩
  · exact fun b _ _ => ⟨.Boolean b, rfl, rfl⟩
  · exact fun s _ _ => ⟨.Enum s, rfl, rfl⟩
  · intro n _ hint
    simp only [check_nodes_canonical, int_fits_32_canonical,
      decide_eq_true_eq] at hint
    refine ⟨.Int n, ?_, rfl⟩
    simp [from_canonical, wrap_i32_eq_self n hint.1 hint.2]
  · exact fun u _ _ => ⟨.Uuid u, rfl, rfl⟩
  · intro xs ih hnf hint
    simp only [check_nodes_canonical, not_float_json_canonical,
      check_nodes_canonical_list_iff, Bool.true_and] at hnf
    simp only [check_nodes_canonical, int_fits_32_canonical,
      check_nodes_canonical_list_iff, Bool.true_and] at hint
    obtain ⟨ws, hws1, hws2⟩ := round_trip_canonical_list to_f64 xs ih hnf hint
    exact ⟨.List ws, by simp [from_canonical, hws1, Except.map],
      by simp [to_canonical, hws2, Except.map]⟩
  · intro s h _
    simp [check_nodes_canonical, not_float_json_canonical] at h
  · exact fun s _ _ => ⟨.Xml s, rfl, rfl⟩
  · intro kvs ih hnf hint
    simp only [check_nodes_canonical, not_float_json_canonical,
      check_nodes_canonical_obj_iff, Bool.true_and] at hnf
    simp only [check_nodes_canonical, int_fits_32_canonical,
      check_nodes_canonical_obj_iff, Bool.true_and] at hint
    obtain ⟨ws, hws1, hws2⟩ := round_trip_canonical_obj to_f64 kvs ih hnf hint
    exact ⟨.Object ws, by simp [from_canonical, hws1, Except.map],
      by simp [to_canonical, hws2, Except.map]⟩
  · exact fun _ _ => ⟨.Null, rfl, rfl⟩
  · exact fun d _ _ => ⟨.DateTime d, rfl, rfl⟩
  · intro d h _
    simp [check_nodes_canonical, not_float_json_canonical] at h
  · exact fun n _ _ => ⟨.BigInt n, rfl, rfl⟩
  · exact fun bs _ _ => ⟨.Bytes bs, rfl, rfl⟩

theorem round_trip_value_list (to_f64 : BigDecimal → F64)
    (xs : List PrismaValue)
    (h : ∀ x ∈ xs,
      check_nodes_value not_float_json_value x = true →
      check_nodes_value int_fits_32_value x = true →
      ∃ cv, to_canonical x = .ok cv ∧ from_canonical to_f64 cv = .ok x)
    (h1 : ∀ x ∈ xs, check_nodes_value not_float_json_value x = true)
    (h2 : ∀ x ∈ xs, check_nodes_value int_fits_32_value x = true) :
    ∃ cvs, to_canonical_list xs = .ok cvs ∧
      from_canonical_list to_f64 cvs = .ok xs := by
  induction xs with
  | nil => exact ⟨[], rfl, rfl⟩
  | cons x rest ih =>
    obtain ⟨cv, hcv1, hcv2⟩ :=
      h x (List.mem_cons_self x rest) (h1 x (List.mem_cons_self x rest))
        (h2 x (List.mem_cons_self x rest))
    obtain ⟨cvs, hcvs1, hcvs2⟩ :=
      ih (fun x hx => h x (List.mem_cons_of_mem _ hx))
        (fun x hx => h1 x (List.mem_cons_of_mem _ hx))
        (fun x hx => h2 x (List.mem_cons_of_mem _ hx))
    exact ⟨cv :: cvs, by simp [to_canonical_list, hcv1, hcvs1],
      by simp [from_canonical_list, hcv2, hcvs2]⟩

theorem round_trip_value_obj (to_f64 : BigDecimal → F64)
    (kvs : List (String × PrismaValue))
    (h : ∀ kv ∈ kvs,
      check_nodes_value not_float_json_value kv.2 = true →
      check_nodes_value int_fits_32_value kv.2 = true →
      ∃ cv, to_canonical kv.2 = .ok cv ∧ from_canonical to_f64 cv = .ok kv.2)
    (h1 : ∀ kv ∈ kvs, check_nodes_value not_float_json_value kv.2 = true)
    (h2 : ∀ kv ∈ kvs, check_nodes_value int_fits_32_value kv.2 = true) :
    ∃ cvs, to_canonical_obj kvs = .ok cvs ∧
      from_canonical_obj to_f64 cvs = .ok kvs := by
  induction kvs with
  | nil => exact ⟨[], rfl, rfl⟩
  | cons kv rest ih =>
    obtain ⟨cv, hcv1, hcv2⟩ :=
      h kv (List.mem_cons_self kv rest) (h1 kv (List.mem_cons_self kv rest))
        (h2 kv (List.mem_cons_self kv rest))
    obtain ⟨cvs, hcvs1, hcvs2⟩ :=
      ih (fun kv hkv => h kv (List.mem_cons_of_mem _ hkv))
        (fun kv hkv => h1 kv (List.mem_cons_of_mem _ hkv))
        (fun kv hkv => h2 kv (List.mem_cons_of_mem _ hkv))
    obtain ⟨k, v⟩ := kv
    exact ⟨(k, cv) :: cvs, by simp [to_canonical_obj, hcv1, hcvs1],
      by simp [from_canonical_obj, hcv2, hcvs2]⟩

/-- Value → canonical → Value: the round trip is exact on every Value
with no `Float`/`Json` node whose `Int` payloads fit in 32 bits (which
Rust's `i32` type guarantees for every `PrismaValue::Int`). -/
theorem round_trip_to_then_from (to_f64 : BigDecimal → F64) :
    ∀ v : PrismaValue,
      no_float_json_value v = true →
      ints_fit_32_value v = true →
      ∃ cv, to_canonical v = .ok cv ∧ from_canonical to_f64 cv = .ok v := by
  unfold no_float_json_value ints_fit_32_value
  refine PrismaValue.value_ind ?_ ?_ ?_ ?_ ?_ ?_ ?_ ?_ ?_ ?_ ?_ ?_ ?_ ?_
  · exact fun s _ _ => ⟨.String s, rfl, rfl⟩
  · exact fun b _ _ => ⟨.Boolean b, rfl, rfl⟩
  · exact fun s _ _ => ⟨.Enum s, rfl, rfl⟩
  · intro n _ hint
    simp only [check_nodes_value, int_fits_32_value, decide_eq_true_eq] at hint
    refine ⟨.Int n, rfl, ?_⟩
    simp [from_canonical, wrap_i32_eq_self n hint.1 hint.2]
  · exact fun u _ _ => ⟨.Uuid u, rfl, rfl⟩
  · intro xs ih hnf hint
    simp only [check_nodes_value, not_float_json_value,
      check_nodes_value_list_iff, Bool.true_and] at hnf
    simp only [check_nodes_value, int_fits_32_value,
      check_nodes_value_list_iff, Bool.true_and] at hint
    obtain ⟨cvs, hcvs1, hcvs2⟩ := round_trip_value_list to_f64 xs ih hnf hint
    exact ⟨.List cvs, by simp [to_canonical, hcvs1, Except.map],
      by simp [from_canonical, hcvs2, Except.map]⟩
  · intro j h _
    simp [check_nodes_value, not_float_json_value] at h
  · exact fun s _ _ => ⟨.Xml s, rfl, rfl⟩
  · intro kvs ih hnf hint
    simp only [check_nodes_value, not_float_json_value,
      check_nodes_value_obj_iff, Bool.true_and] at hnf
    simp only [check_nodes_value, int_fits_32_value,
      check_nodes_value_obj_iff, Bool.true_and] at hint
    obtain ⟨cvs, hcvs1, hcvs2⟩ := round_trip_value_obj to_f64 kvs ih hnf hint
    exact ⟨.Object cvs, by simp [to_canonical, hcvs1, Except.map],
      by simp [from_canonical, hcvs2, Except.map]⟩
  · exact fun _ _ => ⟨.Null, rfl, rfl⟩
  · exact fun d _ _ => ⟨.DateTime d, rfl, rfl⟩
  · intro x h _
    simp [check_nodes_value, not_float_json_value] at h
  · exact fun n _ _ => ⟨.BigInt n, rfl, rfl⟩
  · exact fun bs _ _ => ⟨.Bytes bs, rfl, rfl⟩

/-- The two fatal-fault conditions of spec §7, as properties of the
`Panic` value actually raised: the JSON text really fails to parse, the
double really is non-finite. -/
def fatal_fault : Panic → Prop
  | .jsonFromStr s => serde_json.from_str s = none
  | .bigDecimalFromF64 x => x.isFinite = false

theorem to_canonical_list_error (Q : Panic → Prop)
    (xs : List PrismaValue)
    (h : ∀ x ∈ xs, ∀ e, to_canonical x = .error e → Q e) :
    ∀ e, to_canonical_list xs = .error e → Q e := by
  induction xs with
  | nil => intro e he; exact absurd he (by simp [to_canonical_list])
  | cons x rest ih =>
    intro e he
    cases hx : to_canonical x with
    | error e1 =>
      simp only [to_canonical_list, hx, Except.error.injEq] at he
      exact he ▸ h x (List.mem_cons_self x rest) e1 hx
    | ok x' =>
      cases hrest : to_canonical_list rest with
      | error e2 =>
        simp only [to_canonical_list, hx, hrest, Except.error.injEq] at he
        exact he ▸ ih (fun x hx => h x (List.mem_cons_of_mem _ hx)) e2 hrest
      | ok xs' => simp [to_canonical_list, hx, hrest] at he

theorem to_canonical_obj_error (Q : Panic → Prop)
    (kvs : List (String × PrismaValue))
    (h : ∀ kv ∈ kvs, ∀ e, to_canonical kv.2 = .error e → Q e) :
    ∀ e, to_canonical_obj kvs = .error e → Q e := by
  induction kvs with
  | nil => intro e he; exact absurd he (by simp [to_canonical_obj])
  | cons kv rest ih =>
    intro e he
    have hhead := h kv (List.mem_cons_self kv rest)
    obtain ⟨k, v⟩ := kv
    cases hx : to_canonical v with
    | error e1 =>
      simp only [to_canonical_obj, hx, Except.error.injEq] at he
      exact he ▸ hhead e1 hx
    | ok v' =>
      cases hrest : to_canonical_obj rest with
      | error e2 =>
        simp only [to_canonical_obj, hx, hrest, Except.error.injEq] at he
        exact he ▸ ih (fun kv hkv => h kv (List.mem_cons_of_mem _ hkv)) e2 hrest
      | ok kvs' => simp [to_canonical_obj, hx, hrest] at he

/-- The Value → canonical direction can only fail on a non-finite
`Float` payload, and the error then is exactly the
`BigDecimal::from_f64` panic for that payload. -/
theorem to_canonical_error :
    ∀ v : PrismaValue, ∀ e, to_canonical v = .error e →
      ∃ x, e = Panic.bigDecimalFromF64 x ∧ x.isFinite = false := by
  refine PrismaValue.value_ind ?_ ?_ ?_ ?_ ?_ ?_ ?_ ?_ ?_ ?_ ?_ ?_ ?_ ?_
  · intro s e he; exact absurd he (by simp [to_canonical])
  · intro b e he; exact absurd he (by simp [to_canonical])
  · intro s e he; exact absurd he (by simp [to_canonical])
  · intro n e he; exact absurd he (by simp [to_canonical])
  · intro u e he; exact absurd he (by simp [to_canonical])
  · intro xs ih e he
    cases hxs : to_canonical_list xs with
    | error e1 =>
      simp only [to_canonical, hxs, Except.map, Except.error.injEq] at he
      exact he ▸ to_canonical_list_error _ xs ih e1 hxs
    | ok xs' => simp [to_canonical, hxs, Except.map] at he
  · intro j e he; exact absurd he (by simp [to_canonical])
  · intro s e he; exact absurd he (by simp [to_canonical])
  · intro kvs ih e he
    cases hkvs : to_canonical_obj kvs with
    | error e1 =>
      simp only [to_canonical, hkvs, Except.map, Except.error.injEq] at he
      exact he ▸ to_canonical_obj_error _ kvs ih e1 hkvs
    | ok kvs' => simp [to_canonical, hkvs, Except.map] at he
  · intro e he; exact absurd he (by simp [to_canonical])
  · intro d e he; exact absurd he (by simp [to_canonical])
  · intro x e he
    cases x with
    | finite q => simp [to_canonical, BigDecimal.from_f64] at he
    | nan =>
      simp only [to_canonical, BigDecimal.from_f64, Except.error.injEq] at he
      exact ⟨.nan, he.symm, rfl⟩
    | posInf =>
      simp only [to_canonical, BigDecimal.from_f64, Except.error.injEq] at he
      exact ⟨.posInf, he.symm, rfl⟩
    | negInf =>
      simp only [to_canonical, BigDecimal.from_f64, Except.error.injEq] at he
      exact ⟨.negInf, he.symm, rfl⟩
  · intro n e he; exact absurd he (by simp [to_canonical])
  · intro bs e he; exact absurd he (by simp [to_canonical])

/-- Fatal-fault form of `to_canonical_error`. -/
theorem to_canonical_error_fatal :
    ∀ v : PrismaValue, ∀ e, to_canonical v = .error e → fatal_fault e := by
  intro v e he
  obtain ⟨x, rfl, hx⟩ := to_canonical_error v e he
  exact hx

theorem from_canonical_list_error (to_f64 : BigDecimal → F64)
    (xs : List prisma_models.PrismaValue)
    (h : ∀ x ∈ xs, ∀ e, from_canonical to_f64 x = .error e → fatal_fault e) :
    ∀ e, from_canonical_list to_f64 xs = .error e → fatal_fault e := by
  induction xs with
  | nil => intro e he; exact absurd he (by simp [from_canonical_list])
  | cons x rest ih =>
    intro e he
    cases hx : from_canonical to_f64 x with
    | error e1 =>
      simp only [from_canonical_list, hx, Except.error.injEq] at he
      exact he ▸ h x (List.mem_cons_self x rest) e1 hx
    | ok x' =>
      cases hrest : from_canonical_list to_f64 rest with
      | error e2 =>
        simp only [from_canonical_list, hx, hrest, Except.error.injEq] at he
        exact he ▸ ih (fun x hx => h x (List.mem_cons_of_mem _ hx)) e2 hrest
      | ok xs' => simp [from_canonical_list, hx, hrest] at he

theorem from_canonical_obj_error (to_f64 : BigDecimal → F64)
    (kvs : List (String × prisma_models.PrismaValue))
    (h : ∀ kv ∈ kvs, ∀ e, from_canonical to_f64 kv.2 = .error e → fatal_fault e) :
    ∀ e, from_canonical_obj to_f64 kvs = .error e → fatal_fault e := by
  induction kvs with
  | nil => intro e he; exact absurd he (by simp [from_canonical_obj])
  | cons kv rest ih =>
    intro e he
    have hhead := h kv (List.mem_cons_self kv rest)
    obtain ⟨k, v⟩ := kv
    cases hx : from_canonical to_f64 v with
    | error e1 =>
      simp only [from_canonical_obj, hx, Except.error.injEq] at he
      exact he ▸ hhead e1 hx
    | ok v' =>
      cases hrest : from_canonical_obj to_f64 rest with
      | error e2 =>
        simp only [from_canonical_obj, hx, hrest, Except.error.injEq] at he
        exact he ▸ ih (fun kv hkv => h kv (List.mem_cons_of_mem _ hkv)) e2 hrest
      | ok kvs' => simp [from_canonical_obj, hx, hrest] at he

/-- The canonical → Value direction can only fail with a genuine fatal
fault: a `Json` payload whose text does not parse. -/
theorem from_canonical_error (to_f64 : BigDecimal → F64) :
    ∀ cv : prisma_models.PrismaValue, ∀ e,
      from_canonical to_f64 cv = .error e → fatal_fault e := by
  refine prisma_models.PrismaValue.canonical_value_ind ?_ ?_ ?_ ?_ ?_ ?_ ?_ ?_ ?_ ?_ ?_ ?_ ?_ ?_
  · intro s e he; exact absurd he (by simp [from_canonical])
  · intro b e he; exact absurd he (by simp [from_canonical])
  · intro s e he; exact absurd he (by simp [from_canonical])
  · intro n e he; exact absurd he (by simp [from_canonical])
  · intro u e he; exact absurd he (by simp [from_canonical])
  · intro xs ih e he
    cases hxs : from_canonical_list to_f64 xs with
    | error e1 =>
      simp only [from_canonical, hxs, Except.map, Except.error.injEq] at he
      exact he ▸ from_canonical_list_error to_f64 xs ih e1 hxs
    | ok xs' => simp [from_canonical, hxs, Except.map] at he
  · intro s e he
    cases hs : serde_json.from_str s with
    | some j => simp [from_canonical, hs] at he
    | none =>
      simp only [from_canonical, hs, Except.error.injEq] at he
      exact he ▸ hs
  · intro s e he; exact absurd he (by simp [from_canonical])
  · intro kvs ih e he
    cases hkvs : from_canonical_obj to_f64 kvs with
    | error e1 =>
      simp only [from_canonical, hkvs, Except.map, Except.error.injEq] at he
      exact he ▸ from_canonical_obj_error to_f64 kvs ih e1 hkvs
    | ok kvs' => simp [from_canonical, hkvs, Except.map] at he
  · intro e he; exact absurd he (by simp [from_canonical])
  · intro d e he; exact absurd he (by simp [from_canonical])
  · intro d e he; exact absurd he (by simp [from_canonical])
  · intro n e he; exact absurd he (by simp [from_canonical])
  · intro bs e he; exact absurd he (by simp [from_canonical])

/-- Resolving a clone gives the same Item tree as resolving the original:
the deep copy is structurally equal node for node, and the strong-count
bumps on nested `Ref` handles can only switch a move into a clone, never
change the resolved result. -/
theorem resolve_item_clone (to_f64 : BigDecimal → F64) :
    ∀ t, resolve_item to_f64 (clone_item t) = resolve_item to_f64 t := by
  refine query_core.Item.item_ind ?_ ?_ ?_ ?_ ?_
  · intro kvs ih
    have hmap : resolve_map to_f64 (clone_item_map kvs) = resolve_map to_f64 kvs := by
      induction kvs with
      | nil => rfl
      | cons kv rest ihrest =>
        have hkv := ih kv (List.mem_cons_self kv rest)
        obtain ⟨k, v⟩ := kv
        simp only [clone_item_map, resolve_map, hkv,
          ihrest (fun kv h => ih kv (List.mem_cons_of_mem _ h))]
    simp only [clone_item, resolve_item, hmap]
  · intro xs ih
    have hlist : resolve_list to_f64 (clone_item_list xs) = resolve_list to_f64 xs := by
      induction xs with
      | nil => rfl
      | cons x rest ihrest =>
        simp only [clone_item_list, resolve_list, ih x (List.mem_cons_self x rest),
          ihrest (fun x h => ih x (List.mem_cons_of_mem _ h))]
    simp only [clone_item, resolve_item, hlist]
  · intro v; rfl
  · intro j; rfl
  · intro strong t ih
    have e1 : resolve_item to_f64 (.Ref (strong + 1) t) =
        resolve_item to_f64 (arc_unwrap_or_clone (strong + 1) t) := by
      simp [resolve_item]
    have e2 : resolve_item to_f64 (.Ref strong t) =
        resolve_item to_f64 (arc_unwrap_or_clone strong t) := by
      simp [resolve_item]
    simp only [clone_item]
    rw [e1, e2]
    unfold arc_unwrap_or_clone
    rcases Nat.lt_or_ge strong 2 with h | h
    · match strong, h with
      | 0, _ => simp [ih]
      | 1, _ => simp [ih]
    · rw [if_neg (by omega), if_neg (by omega)]

/-- Resolving a `Ref` node gives the same Item tree as resolving the
referenced sub-tree directly, whatever the strong count. -/
theorem resolve_item_ref (to_f64 : BigDecimal → F64)
    (strong : ℕ) (t : query_core.Item) :
    resolve_item to_f64 (.Ref strong t) = resolve_item to_f64 t := by
  have e : resolve_item to_f64 (.Ref strong t) =
      resolve_item to_f64 (arc_unwrap_or_clone strong t) := by
    simp [resolve_item]
  rw [e]
  unfold arc_unwrap_or_clone
  split
  · rfl
  · exact resolve_item_clone to_f64 t

theorem resolve_map_error (to_f64 : BigDecimal → F64)
    (kvs : List (String × query_core.Item))
    (h : ∀ kv ∈ kvs, ∀ e, resolve_item to_f64 kv.2 = .error e → fatal_fault e) :
    ∀ e, resolve_map to_f64 kvs = .error e → fatal_fault e := by
  induction kvs with
  | nil => intro e he; exact absurd he (by simp [resolve_map])
  | cons kv rest ih =>
    intro e he
    have hhead := h kv (List.mem_cons_self kv rest)
    obtain ⟨k, v⟩ := kv
    cases hv : resolve_item to_f64 v with
    | error e1 =>
      simp only [resolve_map, hv, Except.error.injEq] at he
      exact he ▸ hhead e1 hv
    | ok v' =>
      cases hrest : resolve_map to_f64 rest with
      | error e2 =>
        simp only [resolve_map, hv, hrest, Except.error.injEq] at he
        exact he ▸ ih (fun kv hkv => h kv (List.mem_cons_of_mem _ hkv)) e2 hrest
      | ok kvs' => simp [resolve_map, hv, hrest] at he

theorem resolve_list_error (to_f64 : BigDecimal → F64)
    (xs : List query_core.Item)
    (h : ∀ x ∈ xs, ∀ e, resolve_item to_f64 x = .error e → fatal_fault e) :
    ∀ e, resolve_list to_f64 xs = .error e → fatal_fault e := by
  induction xs with
  | nil => intro e he; exact absurd he (by simp [resolve_list])
  | cons x rest ih =>
    intro e he
    cases hx : resolve_item to_f64 x with
    | error e1 =>
      simp only [resolve_list, hx, Except.error.injEq] at he
      exact he ▸ h x (List.mem_cons_self x rest) e1 hx
    | ok x' =>
      cases hrest : resolve_list to_f64 rest with
      | error e2 =>
        simp only [resolve_list, hx, hrest, Except.error.injEq] at he
        exact he ▸ ih (fun x hx => h x (List.mem_cons_of_mem _ hx)) e2 hrest
      | ok xs' => simp [resolve_list, hx, hrest] at he

/-- The Item Resolver can only fail with a genuine fatal fault of a
`Value` leaf's conversion: malformed JSON text (the non-finite-`Float`
fault cannot arise in this direction, but is covered by the same
predicate). -/
theorem resolve_item_error (to_f64 : BigDecimal → F64) :
    ∀ t, ∀ e, resolve_item to_f64 t = .error e → fatal_fault e := by
  refine query_core.Item.item_ind ?_ ?_ ?_ ?_ ?_
  · intro kvs ih e he
    cases hkvs : resolve_map to_f64 kvs with
    | error e1 =>
      simp only [resolve_item, hkvs, Except.map, Except.error.injEq] at he
      exact he ▸ resolve_map_error to_f64 kvs ih e1 hkvs
    | ok kvs' => simp [resolve_item, hkvs, Except.map] at he
  · intro xs ih e he
    cases hxs : resolve_list to_f64 xs with
    | error e1 =>
      simp only [resolve_item, hxs, Except.map, Except.error.injEq] at he
      exact he ▸ resolve_list_error to_f64 xs ih e1 hxs
    | ok xs' => simp [resolve_item, hxs, Except.map] at he
  · intro v e he
    cases hv : from_canonical to_f64 v with
    | error e1 =>
      simp only [resolve_item, hv, Except.map, Except.error.injEq] at he
      exact he ▸ from_canonical_error to_f64 v e1 hv
    | ok v' => simp [resolve_item, hv, Except.map] at he
  · intro j e he; exact absurd he (by simp [resolve_item])
  · intro strong t ih e he
    rw [resolve_item_ref] at he
    exact ih e he

theorem to_canonical_list_total (xs : List PrismaValue)
    (h : ∀ x ∈ xs, check_nodes_value float_finite_value x = true →
      ∃ cv, to_canonical x = .ok cv)
    (h1 : ∀ x ∈ xs, check_nodes_value float_finite_value x = true) :
    ∃ cvs, to_canonical_list xs = .ok cvs := by
  induction xs with
  | nil => exact ⟨[], rfl⟩
  | cons x rest ih =>
    obtain ⟨cv, hcv⟩ := h x (List.mem_cons_self x rest) (h1 x (List.mem_cons_self x rest))
    obtain ⟨cvs, hcvs⟩ :=
      ih (fun x hx => h x (List.mem_cons_of_mem _ hx))
        (fun x hx => h1 x (List.mem_cons_of_mem _ hx))
    exact ⟨cv :: cvs, by simp [to_canonical_list, hcv, hcvs]⟩

theorem to_canonical_obj_total (kvs : List (String × PrismaValue))
    (h : ∀ kv ∈ kvs, check_nodes_value float_finite_value kv.2 = true →
      ∃ cv, to_canonical kv.2 = .ok cv)
    (h1 : ∀ kv ∈ kvs, check_nodes_value float_finite_value kv.2 = true) :
    ∃ cvs, to_canonical_obj kvs = .ok cvs := by
  induction kvs with
  | nil => exact ⟨[], rfl⟩
  | cons kv rest ih =>
    obtain ⟨cv, hcv⟩ :=
      h kv (List.mem_cons_self kv rest) (h1 kv (List.mem_cons_self kv rest))
    obtain ⟨cvs, hcvs⟩ :=
      ih (fun kv hkv => h kv (List.mem_cons_of_mem _ hkv))
        (fun kv hkv => h1 kv (List.mem_cons_of_mem _ hkv))
    obtain ⟨k, v⟩ := kv
    exact ⟨(k, cv) :: cvs, by simp [to_canonical_obj, hcv, hcvs]⟩

/-- Value → canonical succeeds on every Value whose `Float` payloads are
all finite (whatever its `Json` payloads: `serde_json::to_string` cannot
fail on a `serde_json::Value`). -/
theorem to_canonical_total :
    ∀ v : PrismaValue, floats_finite_value v = true →
      ∃ cv, to_canonical v = .ok cv := by
  unfold floats_finite_value
  refine PrismaValue.value_ind ?_ ?_ ?_ ?_ ?_ ?_ ?_ ?_ ?_ ?_ ?_ ?_ ?_ ?_
  · exact fun s _ => ⟨.String s, rfl⟩
  · exact fun b _ => ⟨.Boolean b, rfl⟩
  · exact fun s _ => ⟨.Enum s, rfl⟩
  · exact fun n _ => ⟨.Int n, rfl⟩
  · exact fun u _ => ⟨.Uuid u, rfl⟩
  · intro xs ih hf
    simp only [check_nodes_value, float_finite_value,
      check_nodes_value_list_iff, Bool.true_and] at hf
    obtain ⟨cvs, hcvs⟩ := to_canonical_list_total xs ih hf
    exact ⟨.List cvs, by simp [to_canonical, hcvs, Except.map]⟩
  · exact fun j _ => ⟨.Json (serde_json.to_string j), rfl⟩
  · exact fun s _ => ⟨.Xml s, rfl⟩
  · intro kvs ih hf
    simp only [check_nodes_value, float_finite_value,
      check_nodes_value_obj_iff, Bool.true_and] at hf
    obtain ⟨cvs, hcvs⟩ := to_canonical_obj_total kvs ih hf
    exact ⟨.Object cvs, by simp [to_canonical, hcvs, Except.map]⟩
  · exact fun _ => ⟨.Null, rfl⟩
  · exact fun d _ => ⟨.DateTime d, rfl⟩
  · intro x hf
    simp only [check_nodes_value, float_finite_value] at hf
    cases x with
    | finite q => exact ⟨.Float q, rfl⟩
    | nan => simp [F64.isFinite] at hf
    | posInf => simp [F64.isFinite] at hf
    | negInf => simp [F64.isFinite] at hf
  · exact fun n _ => ⟨.BigInt n, rfl⟩
  · exact fun bs _ => ⟨.Bytes bs, rfl⟩

theorem to_canonical_obj_forall2 (kvs : List (String × PrismaValue))
    (cvs : List (String × prisma_models.PrismaValue))
    (h : to_canonical_obj kvs = .ok cvs) :
    List.Forall₂ (fun kv cv => cv.1 = kv.1 ∧ to_canonical kv.2 = .ok cv.2) kvs cvs := by
  induction kvs generalizing cvs with
  | nil =>
    simp only [to_canonical_obj, Except.ok.injEq] at h
    subst h
    exact List.Forall₂.nil
  | cons kv rest ih =>
    obtain ⟨k, v⟩ := kv
    cases hv : to_canonical v with
    | error e => simp [to_canonical_obj, hv] at h
    | ok v' =>
      cases hrest : to_canonical_obj rest with
      | error e => simp [to_canonical_obj, hv, hrest] at h
      | ok cvs' =>
        simp only [to_canonical_obj, hv, hrest, Except.ok.injEq] at h
        subst h
        exact List.Forall₂.cons ⟨rfl, hv⟩ (ih cvs' hrest)

theorem from_canonical_obj_forall2 (to_f64 : BigDecimal → F64)
    (cvs : List (String × prisma_models.PrismaValue))
    (kvs : List (String × PrismaValue))
    (h : from_canonical_obj to_f64 cvs = .ok kvs) :
    List.Forall₂
      (fun cv kv => kv.1 = cv.1 ∧ from_canonical to_f64 cv.2 = .ok kv.2) cvs kvs := by
  induction cvs generalizing kvs with
  | nil =>
    simp only [from_canonical_obj, Except.ok.injEq] at h
    subst h
    exact List.Forall₂.nil
  | cons cv rest ih =>
    obtain ⟨k, v⟩ := cv
    cases hv : from_canonical to_f64 v with
    | error e => simp [from_canonical_obj, hv] at h
    | ok v' =>
      cases hrest : from_canonical_obj to_f64 rest with
      | error e => simp [from_canonical_obj, hv, hrest] at h
      | ok kvs' =>
        simp only [from_canonical_obj, hv, hrest, Except.ok.injEq] at h
        subst h
        exact List.Forall₂.cons ⟨rfl, hv⟩ (ih kvs' hrest)

/-- The serde output of an `Object`'s entry list: one 2-tuple per entry,
in entry order. -/
theorem serialize_value_obj_map (kvs : List (String × PrismaValue)) :
    serialize_value_obj kvs =
      kvs.map fun kv => Wire.seq [.str kv.1, serialize_value kv.2] := by
  induction kvs with
  | nil => rfl
  | cons kv rest ih =>
    obtain ⟨k, v⟩ := kv
    simp [serialize_value_obj, ih]

theorem resolve_map_forall2 (to_f64 : BigDecimal → F64)
    (kvs : List (String × query_core.Item)) (rs : List (String × Item))
    (h : resolve_map to_f64 kvs = .ok rs) :
    List.Forall₂
      (fun kv r => r.1 = kv.1 ∧ resolve_item to_f64 kv.2 = .ok r.2) kvs rs := by
  induction kvs generalizing rs with
  | nil =>
    simp only [resolve_map, Except.ok.injEq] at h
    subst h
    exact List.Forall₂.nil
  | cons kv rest ih =>
    obtain ⟨k, v⟩ := kv
    cases hv : resolve_item to_f64 v with
    | error e => simp [resolve_map, hv] at h
    | ok v' =>
      cases hrest : resolve_map to_f64 rest with
      | error e => simp [resolve_map, hv, hrest] at h
      | ok rs' =>
        simp only [resolve_map, hv, hrest, Except.ok.injEq] at h
        subst h
        exact List.Forall₂.cons ⟨rfl, hv⟩ (ih rs' hrest)

theorem resolve_list_forall2 (to_f64 : BigDecimal → F64)
    (xs : List query_core.Item) (rs : List Item)
    (h : resolve_list to_f64 xs = .ok rs) :
    List.Forall₂ (fun x r => resolve_item to_f64 x = .ok r) xs rs := by
  induction xs generalizing rs with
  | nil =>
    simp only [resolve_list, Except.ok.injEq] at h
    subst h
    exact List.Forall₂.nil
  | cons x rest ih =>
    cases hx : resolve_item to_f64 x with
    | error e => simp [resolve_list, hx] at h
    | ok x' =>
      cases hrest : resolve_list to_f64 rest with
      | error e => simp [resolve_list, hx, hrest] at h
      | ok rs' =>
        simp only [resolve_list, hx, hrest, Except.ok.injEq] at h
        subst h
        exact List.Forall₂.cons hx (ih rs' hrest)

/-- A key-order corollary of the pairwise entry relation. -/
theorem forall2_keys {α β : Type} {P : String × α → String × β → Prop}
    (hP : ∀ a b, P a b → b.1 = a.1) :
    ∀ kvs rs, List.Forall₂ P kvs rs → rs.map Prod.fst = kvs.map Prod.fst := by
  intro kvs rs h
  induction h with
  | nil => rfl
  | cons hab _ ih => simp [hP _ _ hab, ih]

/-- A sample decimal → binary64 conversion used to instantiate the
`to_f64` parameter at concrete inputs in witnesses. -/
def to_f64_exact : BigDecimal → F64 := F64.finite

/-- C1: as stated the claim fails — its canonical → Value → canonical
half is broken by `Int` narrowing.  This exhibits the failure at the
concrete canonical value `Int(9_000_000_000_000)`: a non-`Float`,
non-`Json` canonical value whose round trip returns `Int(2043514880)`
instead of the original. -/
theorem C1_counterexample :
    no_float_json_canonical (prisma_models.PrismaValue.Int 9000000000000) = true ∧
    from_canonical to_f64_exact (prisma_models.PrismaValue.Int 9000000000000) =
      .ok (PrismaValue.Int 2043514880) ∧
    to_canonical (PrismaValue.Int 2043514880) =
      .ok (prisma_models.PrismaValue.Int 2043514880) ∧
    prisma_models.PrismaValue.Int 2043514880 ≠
      prisma_models.PrismaValue.Int 9000000000000 := by
  refine ⟨rfl, rfl, rfl, ?_⟩
  intro h
  injection h with h1
  omega

/-- C1 (amended): the conversions are mutual structural inverses for
every `Float`/`Json`-free value whose `Int` payloads fit in signed 32
bits — the Value direction always satisfies the range condition in Rust
(`i32` payload), the canonical direction must assume it because `Int`
narrowing truncates. -/
theorem C1_round_trip (to_f64 : BigDecimal → F64) :
    (∀ cv : prisma_models.PrismaValue,
      no_float_json_canonical cv = true → ints_fit_32_canonical cv = true →
      ∃ w, from_canonical to_f64 cv = .ok w ∧ to_canonical w = .ok cv) ∧
    (∀ v : PrismaValue,
      no_float_json_value v = true → ints_fit_32_value v = true →
      ∃ cv, to_canonical v = .ok cv ∧ from_canonical to_f64 cv = .ok v) :=
  ⟨round_trip_from_then_to to_f64, round_trip_to_then_from to_f64⟩

/-- C1 witness: the round trip at the concrete canonical value
`Object [("a", Int 5), ("b", List [Null])]` and at the concrete Value
`List [Boolean true, Int (-7)]`. -/
theorem C1_round_trip_witness :
    (∃ w,
      from_canonical to_f64_exact
        (prisma_models.PrismaValue.Object
          [("a", .Int 5), ("b", .List [.Null])]) = .ok w ∧
      to_canonical w =
        .ok (prisma_models.PrismaValue.Object
          [("a", .Int 5), ("b", .List [.Null])])) ∧
    (∃ cv,
      to_canonical (PrismaValue.List [.Boolean true, .Int (-7)]) = .ok cv ∧
      from_canonical to_f64_exact cv =
        .ok (PrismaValue.List [.Boolean true, .Int (-7)])) :=
  ⟨(C1_round_trip to_f64_exact).1 _ (by decide) (by decide),
   (C1_round_trip to_f64_exact).2 _ (by decide) (by decide)⟩

/-- C2: a non-finite double presented to the Value → canonical `Float`
conversion is rejected with the explicit typed error of that conversion
(`BigDecimal::from_f64`'s failed unwrap, carrying the offending input)
and is never mapped to any canonical value, decimal or otherwise. -/
theorem C2_nonfinite_float_rejected (d : F64) (h : d.isFinite = false) :
    to_canonical (PrismaValue.Float d) = .error (.bigDecimalFromF64 d) ∧
    ∀ cv, to_canonical (PrismaValue.Float d) ≠ .ok cv := by
  have he : to_canonical (PrismaValue.Float d) = .error (.bigDecimalFromF64 d) := by
    cases d with
    | finite q => simp [F64.isFinite] at h
    | nan => rfl
    | posInf => rfl
    | negInf => rfl
  exact ⟨he, fun cv hcv => by rw [he] at hcv; exact Except.noConfusion hcv⟩

/-- C2 witness: the rejection at each of the three non-finite doubles. -/
theorem C2_nonfinite_float_rejected_witness :
    to_canonical (PrismaValue.Float .nan) = .error (.bigDecimalFromF64 .nan) ∧
    to_canonical (PrismaValue.Float .posInf) = .error (.bigDecimalFromF64 .posInf) ∧
    to_canonical (PrismaValue.Float .negInf) = .error (.bigDecimalFromF64 .negInf) :=
  ⟨(C2_nonfinite_float_rejected .nan rfl).1,
   (C2_nonfinite_float_rejected .posInf rfl).1,
   (C2_nonfinite_float_rejected .negInf rfl).1⟩

/-- C4: the canonical → Value `Int` narrowing is Rust's `as i32`: one
deterministic policy for every input, and that policy is two's-complement
truncation — the result is congruent to the input modulo `2^32` and lies
in signed 32-bit range; at `Int(9_000_000_000_000)` it yields exactly
`Int(2043514880)`. -/
theorem C4_int_narrowing (to_f64 : BigDecimal → F64) (n : ℤ) :
    from_canonical to_f64 (prisma_models.PrismaValue.Int n) =
      .ok (PrismaValue.Int (wrap_i32 n)) ∧
    (-(2 ^ 31) ≤ wrap_i32 n ∧ wrap_i32 n < 2 ^ 31) ∧
    (2 ^ 32 : ℤ) ∣ (wrap_i32 n - n) ∧
    from_canonical to_f64 (prisma_models.PrismaValue.Int 9000000000000) =
      .ok (PrismaValue.Int 2043514880) := by
  refine ⟨rfl, ?_, ?_, rfl⟩
  · unfold wrap_i32
    omega
  · unfold wrap_i32
    omega

/-- C3: as stated the claim fails — `serde_json::from_str` rejects some
well-formed JSON texts, so the conversion faults where the claim promises
success.  Concretely `"1e999"` is grammatically well-formed JSON, yet its
numeric literal has no finite binary64 value, `from_str` reports
`NumberOutOfRange`, and the line-84 unwrap aborts the conversion;
likewise a 128-deep nested array is well-formed but hits the recursion
limit. -/
theorem C3_counterexample :
    well_formed_json "1e999" = true ∧
    serde_json.from_str "1e999" = none ∧
    from_canonical to_f64_exact (prisma_models.PrismaValue.Json "1e999") =
      .error (.jsonFromStr "1e999") ∧
    well_formed_json
      (String.mk (List.replicate 128 '[' ++ List.replicate 128 ']')) = true ∧
    serde_json.from_str
      (String.mk (List.replicate 128 '[' ++ List.replicate 128 ']')) = none := by
  set_option maxRecDepth 8000 in
  exact ⟨rfl, rfl, rfl, rfl, rfl⟩

/-- C3 (amended): canonical → Value conversion of a `Json` payload aborts
with the unrecoverable `from_str` unwrap fault exactly when
`serde_json::from_str` rejects the text — malformed JSON such as
`"{invalid"`, a document over the 128-level recursion limit, or a numeric
literal outside finite binary64 range — and never yields `Null`, an empty
document, or any other value there; on every text `from_str` accepts, it
succeeds with the parsed document (nesting depth 127 still parses). -/
theorem C3_json_parse (to_f64 : BigDecimal → F64) :
    (∀ s, serde_json.from_str s = none →
      from_canonical to_f64 (prisma_models.PrismaValue.Json s) =
        .error (.jsonFromStr s) ∧
      ∀ w, from_canonical to_f64 (prisma_models.PrismaValue.Json s) ≠ .ok w) ∧
    (∀ s j, serde_json.from_str s = some j →
      from_canonical to_f64 (prisma_models.PrismaValue.Json s) =
        .ok (.Json j)) ∧
    serde_json.from_str "\x7binvalid" = none ∧
    (serde_json.from_str
      (String.mk (List.replicate 127 '[' ++ List.replicate 127 ']'))).isSome =
      true := by
  refine ⟨?_, ?_, rfl, ?_⟩
  · intro s hs
    have he : from_canonical to_f64 (prisma_models.PrismaValue.Json s) =
        .error (.jsonFromStr s) := by
      simp [from_canonical, hs]
    exact ⟨he, fun w hw => by rw [he] at hw; exact Except.noConfusion hw⟩
  · intro s j hs
    simp [from_canonical, hs]
  · set_option maxRecDepth 8000 in
    exact rfl

/-- C3 witness: the fault at `"{invalid"`, and success at the well-formed
document `"[1, true]"`. -/
theorem C3_json_parse_witness :
    (from_canonical to_f64_exact (prisma_models.PrismaValue.Json "\x7binvalid") =
      .error (.jsonFromStr "\x7binvalid")) ∧
    (from_canonical to_f64_exact (prisma_models.PrismaValue.Json "[1, true]") =
      .ok (.Json (.arr [.num "1", .bool true]))) :=
  ⟨((C3_json_parse to_f64_exact).1 "\x7binvalid" rfl).1,
   (C3_json_parse to_f64_exact).2.1 "[1, true]" (.arr [.num "1", .bool true]) rfl⟩

/-- C5: resolving a `Ref` node with ≥ 1 owners; when this holder is the
last owner (`strong = 1`) the sub-tree is moved out unchanged (no clone);
when other owners remain (`strong ≥ 2`) it is the clone that is resolved,
and resolving the clone yields an Item tree structurally equal to
resolving the original; in both cases the result equals resolving the
referenced sub-tree directly. -/
theorem C5_ref_resolution (to_f64 : BigDecimal → F64)
    (strong : ℕ) (t : query_core.Item) (h : 1 ≤ strong) :
    (strong = 1 → arc_unwrap_or_clone strong t = t) ∧
    (2 ≤ strong → arc_unwrap_or_clone strong t = clone_item t) ∧
    resolve_item to_f64 (clone_item t) = resolve_item to_f64 t ∧
    resolve_item to_f64 (query_core.Item.Ref strong t) =
      resolve_item to_f64 t := by
  refine ⟨?_, ?_, resolve_item_clone to_f64 t, resolve_item_ref to_f64 strong t⟩
  · intro h1
    unfold arc_unwrap_or_clone
    rw [if_pos h1]
  · intro h2
    unfold arc_unwrap_or_clone
    rw [if_neg (by omega)]

/-- C5 witness: a shared (`strong = 2`) and a uniquely held
(`strong = 1`) `Ref` around the sub-tree `Value Null`. -/
theorem C5_ref_resolution_witness :
    ((2 : ℕ) = 1 → arc_unwrap_or_clone 2 (.Value .Null) = .Value .Null) ∧
    (2 ≤ (2 : ℕ) →
      arc_unwrap_or_clone 2 (.Value .Null) = clone_item (.Value .Null)) ∧
    resolve_item to_f64_exact (clone_item (.Value .Null)) =
      resolve_item to_f64_exact (.Value .Null) ∧
    resolve_item to_f64_exact (query_core.Item.Ref 2 (.Value .Null)) =
      resolve_item to_f64_exact (.Value .Null) :=
  C5_ref_resolution to_f64_exact 2 (.Value .Null) (by omega)

/-- C6: both conversion directions preserve an `Object`'s entry sequence
exactly — pairwise, in order, keeping duplicates — and serialization
emits one 2-tuple per entry in original order; in particular
`Object [("a",1),("a",2)]` serializes with both pairs present, in
order. -/
theorem C6_object_order (to_f64 : BigDecimal → F64) :
    (∀ cvs w, from_canonical to_f64 (prisma_models.PrismaValue.Object cvs) = .ok w →
      ∃ kvs, w = PrismaValue.Object kvs ∧
        List.Forall₂
          (fun cv kv => kv.1 = cv.1 ∧ from_canonical to_f64 cv.2 = .ok kv.2)
          cvs kvs ∧
        kvs.map Prod.fst = cvs.map Prod.fst) ∧
    (∀ kvs w, to_canonical (PrismaValue.Object kvs) = .ok w →
      ∃ cvs, w = prisma_models.PrismaValue.Object cvs ∧
        List.Forall₂
          (fun kv cv => cv.1 = kv.1 ∧ to_canonical kv.2 = .ok cv.2) kvs cvs ∧
        cvs.map Prod.fst = kvs.map Prod.fst) ∧
    (∀ kvs, serialize_value (PrismaValue.Object kvs) =
      .seq (kvs.map fun kv => Wire.seq [.str kv.1, serialize_value kv.2])) ∧
    serialize_value (PrismaValue.Object [("a", .Int 1), ("a", .Int 2)]) =
      .seq [.seq [.str "a", .i32 1], .seq [.str "a", .i32 2]] := by
  refine ⟨?_, ?_, ?_, rfl⟩
  · intro cvs w hw
    cases hcvs : from_canonical_obj to_f64 cvs with
    | error e => simp [from_canonical, hcvs, Except.map] at hw
    | ok kvs =>
      simp only [from_canonical, hcvs, Except.map, Except.ok.injEq] at hw
      have h2 := from_canonical_obj_forall2 to_f64 cvs kvs hcvs
      exact ⟨kvs, hw.symm, h2, forall2_keys (fun a b hab => hab.1) cvs kvs h2⟩
  · intro kvs w hw
    cases hkvs : to_canonical_obj kvs with
    | error e => simp [to_canonical, hkvs, Except.map] at hw
    | ok cvs =>
      simp only [to_canonical, hkvs, Except.map, Except.ok.injEq] at hw
      have h2 := to_canonical_obj_forall2 kvs cvs hkvs
      exact ⟨cvs, hw.symm, h2, forall2_keys (fun a b hab => hab.1) kvs cvs h2⟩
  · intro kvs
    simp [serialize_value, serialize_value_obj_map]

/-- C6 witness: the duplicate-key object `[("a",1),("a",2)]` through both
conversion directions. -/
theorem C6_object_order_witness :
    (∃ kvs, PrismaValue.Object [("a", .Int 1), ("a", .Int 2)] =
        PrismaValue.Object kvs ∧
      List.Forall₂
        (fun cv kv => kv.1 = cv.1 ∧ from_canonical to_f64_exact cv.2 = .ok kv.2)
        [("a", .Int 1), ("a", .Int 2)] kvs ∧
      kvs.map Prod.fst =
        ([("a", prisma_models.PrismaValue.Int 1),
          ("a", prisma_models.PrismaValue.Int 2)]).map Prod.fst) ∧
    (∃ cvs, prisma_models.PrismaValue.Object [("a", .Int 1), ("a", .Int 2)] =
        prisma_models.PrismaValue.Object cvs ∧
      List.Forall₂
        (fun kv cv => cv.1 = kv.1 ∧ to_canonical kv.2 = .ok cv.2)
        [("a", .Int 1), ("a", .Int 2)] cvs ∧
      cvs.map Prod.fst =
        ([("a", PrismaValue.Int 1), ("a", PrismaValue.Int 2)]).map Prod.fst) :=
  ⟨(C6_object_order to_f64_exact).1
      [("a", .Int 1), ("a", .Int 2)] (.Object [("a", .Int 1), ("a", .Int 2)]) rfl,
   (C6_object_order to_f64_exact).2.1
      [("a", .Int 1), ("a", .Int 2)] (.Object [("a", .Int 1), ("a", .Int 2)]) rfl⟩

/-- C7: `Null` serializes exactly as serde serializes an absent optional
value (`serialize_none`, the explicit no-value marker), and it is the
only Value variant with that wire form — every other variant serializes
untagged as its payload, which is never the no-value marker. -/
theorem C7_null_wire :
    serialize_value PrismaValue.Null = serialize_option_unit none ∧
    serialize_value PrismaValue.Null = serialize_null ∧
    ∀ v : PrismaValue, v ≠ .Null → serialize_value v ≠ serialize_option_unit none := by
  refine ⟨rfl, rfl, ?_⟩
  intro v hv
  cases v with
  | Json j =>
    cases j <;> simp [serialize_value, serialize_json, serialize_option_unit]
  | Null => exact absurd rfl hv
  | _ => simp [serialize_value, serialize_option_unit, serialize_null]

/-- C7 witness: a value of every other payload kind serializes to
something other than the no-value marker. -/
theorem C7_null_wire_witness :
    serialize_value (PrismaValue.Boolean false) ≠ serialize_option_unit none ∧
    serialize_value (PrismaValue.Json .null) ≠ serialize_option_unit none ∧
    serialize_value (PrismaValue.List []) ≠ serialize_option_unit none :=
  ⟨C7_null_wire.2.2 (.Boolean false) (by simp),
   C7_null_wire.2.2 (.Json .null) (by simp),
   C7_null_wire.2.2 (.List []) (by simp)⟩

/-- C8: the Item Resolver is the structural recursion of spec §4.2: a
`Map` resolves to a `Map` with the same keys in the same order over the
resolved children, a `List` to a `List` of the resolved elements in
order, a `Value` leaf applies the canonical → Value conversion, and a
`Json` leaf passes through unchanged. -/
theorem C8_resolver_structure (to_f64 : BigDecimal → F64) :
    (∀ kvs r, resolve_item to_f64 (query_core.Item.Map kvs) = .ok r →
      ∃ rs, r = Item.Map rs ∧
        List.Forall₂
          (fun kv rkv => rkv.1 = kv.1 ∧ resolve_item to_f64 kv.2 = .ok rkv.2)
          kvs rs ∧
        rs.map Prod.fst = kvs.map Prod.fst) ∧
    (∀ xs r, resolve_item to_f64 (query_core.Item.List xs) = .ok r →
      ∃ rs, r = Item.List rs ∧
        List.Forall₂ (fun x rx => resolve_item to_f64 x = .ok rx) xs rs) ∧
    (∀ v, resolve_item to_f64 (query_core.Item.Value v) =
      (from_canonical to_f64 v).map Item.Value) ∧
    (∀ j, resolve_item to_f64 (query_core.Item.Json j) = .ok (.Json j)) := by
  refine ⟨?_, ?_, ?_, ?_⟩
  · intro kvs r hr
    cases hkvs : resolve_map to_f64 kvs with
    | error e => simp [resolve_item, hkvs, Except.map] at hr
    | ok rs =>
      simp only [resolve_item, hkvs, Except.map, Except.ok.injEq] at hr
      have h2 := resolve_map_forall2 to_f64 kvs rs hkvs
      exact ⟨rs, hr.symm, h2, forall2_keys (fun a b hab => hab.1) kvs rs h2⟩
  · intro xs r hr
    cases hxs : resolve_list to_f64 xs with
    | error e => simp [resolve_item, hxs, Except.map] at hr
    | ok rs =>
      simp only [resolve_item, hxs, Except.map, Except.ok.injEq] at hr
      exact ⟨rs, hr.symm, resolve_list_forall2 to_f64 xs rs hxs⟩
  · intro v
    simp [resolve_item]
  · intro j
    simp [resolve_item]

/-- C8 witness: a concrete two-entry map of a JSON leaf and a scalar
leaf. -/
theorem C8_resolver_structure_witness :
    ∃ rs, Item.Map [("j", .Json .null), ("v", .Value (.Boolean true))] =
        Item.Map rs ∧
      List.Forall₂
        (fun kv rkv => rkv.1 = kv.1 ∧ resolve_item to_f64_exact kv.2 = .ok rkv.2)
        [("j", query_core.Item.Json .null),
         ("v", query_core.Item.Value (.Boolean true))] rs ∧
      rs.map Prod.fst =
        ([("j", query_core.Item.Json Json.null),
          ("v", query_core.Item.Value (prisma_models.PrismaValue.Boolean true))]).map
          Prod.fst :=
  (C8_resolver_structure to_f64_exact).1
    [("j", .Json .null), ("v", .Value (.Boolean true))]
    (Item.Map [("j", .Json .null), ("v", .Value (.Boolean true))])
    (by simp [resolve_item, resolve_map, from_canonical, Except.map])

/-- C9: both conversions and the Item Resolver are total functions of
their finite input trees — every run completes with a result — and a
non-`ok` result is possible only for the fatal-fault inputs: a `Json`
payload whose text does not parse, or a non-finite `Float` payload. -/
theorem C9_termination (to_f64 : BigDecimal → F64) :
    (∀ cv : prisma_models.PrismaValue, ∃ r, from_canonical to_f64 cv = r ∧
      ∀ e, r = .error e → fatal_fault e) ∧
    (∀ v : PrismaValue, ∃ r, to_canonical v = r ∧
      ∀ e, r = .error e → fatal_fault e) ∧
    (∀ t : query_core.Item, ∃ r, resolve_item to_f64 t = r ∧
      ∀ e, r = .error e → fatal_fault e) :=
  ⟨fun cv => ⟨from_canonical to_f64 cv, rfl,
    fun e he => from_canonical_error to_f64 cv e he⟩,
   fun v => ⟨to_canonical v, rfl,
    fun e he => to_canonical_error_fatal v e he⟩,
   fun t => ⟨resolve_item to_f64 t, rfl,
    fun e he => resolve_item_error to_f64 t e he⟩⟩

/-- C9 witness: completion at one concrete input of each of the three
transformations. -/
theorem C9_termination_witness :
    (∃ r, from_canonical to_f64_exact
        (prisma_models.PrismaValue.List [.Null]) = r ∧
      ∀ e, r = .error e → fatal_fault e) ∧
    (∃ r, to_canonical (PrismaValue.Float .nan) = r ∧
      ∀ e, r = .error e → fatal_fault e) ∧
    (∃ r, resolve_item to_f64_exact
        (query_core.Item.Ref 3 (.Value .Null)) = r ∧
      ∀ e, r = .error e → fatal_fault e) :=
  ⟨(C9_termination to_f64_exact).1 (prisma_models.PrismaValue.List [.Null]),
   (C9_termination to_f64_exact).2.1 (PrismaValue.Float .nan),
   (C9_termination to_f64_exact).2.2 (query_core.Item.Ref 3 (.Value .Null))⟩

/-- C10: the Value → canonical direction never fails when every `Float`
payload is finite — in particular the `Json` arm's
`serde_json::to_string(..).unwrap()` succeeds on every document — and
conversely any failure comes from a non-finite `Float` payload, which is
therefore the direction's sole failure source. -/
theorem C10_to_canonical_safe :
    (∀ v : PrismaValue, floats_finite_value v = true →
      ∃ cv, to_canonical v = .ok cv) ∧
    (∀ j : Json, to_canonical (PrismaValue.Json j) =
      .ok (.Json (serde_json.to_string j))) ∧
    (∀ v : PrismaValue, ∀ e, to_canonical v = .error e →
      ∃ x, e = Panic.bigDecimalFromF64 x ∧ x.isFinite = false) :=
  ⟨to_canonical_total, fun j => rfl, to_canonical_error⟩

/-- C10 witness: success at a concrete all-finite value nesting a JSON
document, a float and an object. -/
theorem C10_to_canonical_safe_witness :
    floats_finite_value
      (PrismaValue.List
        [.Json (.obj [("k", .str "v")]), .Float (.finite (3 / 2 : ℚ)),
         .Object [("x", .Null)]]) = true ∧
    ∃ cv, to_canonical
      (PrismaValue.List
        [.Json (.obj [("k", .str "v")]), .Float (.finite (3 / 2 : ℚ)),
         .Object [("x", .Null)]]) = .ok cv :=
  ⟨by decide, C10_to_canonical_safe.1 _ (by decide)⟩
